import Mathlib

/-!
Verification of the xact distributed execution engine.

Shallow embedding of the parts of the `xact` Python code base that the
verified properties concern: control signals and the per-process scheduler
(`xact/proc/__init__.py`, `xact/node/__init__.py`), the transport factory
(`xact/host/__init__.py`), the topological run-order computation
(`xact/util/__init__.py`), the buffer allocator (`xact/gen/python.py`) and
the configuration pipeline (`xact/cfg/*`).

Python conventions used throughout the embedding:

* Python dictionaries are represented as association lists that keep the
  insertion order; sets are represented as duplicate-free lists.
* Fallible Python code is embedded in `Except PyErr`; every way a piece of
  embedded code can raise is represented by an explicit `throw`.
* Machine-level details play no role in any claim: ids are strings, counts
  are natural numbers.
-/

namespace Xact

/-! ## Control signals (`xact/signal/__init__.py`) -/

/-- The three concrete `ControlSignal` subclasses.  `NonRecoverableError`
carries its `cause` (an exception, embedded here as a string description),
and `Halt` carries its `return_code`. -/
inductive Signal
  | nonRecoverableError (cause : String)
  | halt (returnCode : Int)
  | resetAndRetry
deriving DecidableEq, Repr

/-- `type(signal).__name__` for each of the signal classes. -/
def Signal.name : Signal → String
  | .nonRecoverableError _ => "NonRecoverableError"
  | .halt _                => "Halt"
  | .resetAndRetry         => "ResetAndRetry"

/-! ## Signal handling in the scheduler (`xact/proc/__init__.py`) -/

/-- The tuple `priority_order` from `_handle_signals`. -/
def priority_order : List String :=
  ["NonRecoverableError", "Halt", "ResetAndRetry"]

/-- `_handle_signals`: if the list is empty, return normally (`none`);
otherwise scan the priority order and raise (`some`) the first signal in
list order whose class name matches the current priority name. -/
def handle_signals (list_signal : List Signal) : Option Signal :=
  if list_signal.isEmpty then
    none
  else
    priority_order.findSome? fun name =>
      list_signal.find? fun signal => signal.name == name

/-! ## The node runtime (`xact/node/__init__.py`) -/

/-- Outcome of invoking a user-supplied `reset`/`step` callable: it returns
a value (possibly a signal, possibly `None`), raises a `ControlSignal`, or
raises some other exception (embedded by its description). -/
inductive CallOutcome
  | ret (signal : Option Signal)
  | raiseSignal (signal : Signal)
  | raiseOther (error : String)
deriving DecidableEq, Repr

/-- `_call_reset`: `None` function is a no-op; a returned value passes
through; a raised `ControlSignal` is returned; any other exception is
converted into a `NonRecoverableError` carrying the original cause. -/
def call_reset (fcn_reset : Option CallOutcome) : Option Signal :=
  match fcn_reset with
  | none => none
  | some (.ret signal)       => signal
  | some (.raiseSignal s)    => some s
  | some (.raiseOther error) => some (.nonRecoverableError error)

/-- `_call_step`: identical adapter logic for the step function. -/
def call_step (fcn_step : Option CallOutcome) : Option Signal :=
  match fcn_step with
  | none => none
  | some (.ret signal)       => signal
  | some (.raiseSignal s)    => some s
  | some (.raiseOther error) => some (.nonRecoverableError error)

/-- `Node.reset`: the method body invokes `_call_reset` but contains no
`return` statement, so the Python method always returns `None` and the
signal computed by `_call_reset` is discarded. -/
def node_reset (fcn_reset : Option CallOutcome) : Option Signal :=
  let _signal := call_reset fcn_reset
  none

/-- `Node.step`: dequeues inputs, invokes `_call_step`, enqueues outputs
and returns the signal.  Queue traffic does not interact with the signal
path, so the signal behaviour is exactly `_call_step`. -/
def node_step (fcn_step : Option CallOutcome) : Option Signal :=
  call_step fcn_step

/-! ## Scheduler passes (`xact/proc/__init__.py`, `reset` and `step`)

Both passes share the shape: clear the shared `list_signal`, run every
node of the process in run order appending each non-`None` signal, then
call `_handle_signals` on the collected list.  A pass is embedded as a
function from the previous contents of `list_signal` and the per-node
outcomes to the new contents of `list_signal` and the signal raised by
`_handle_signals` (`none` if it returns normally). -/

/-- `reset(list_node, list_signal)`: clear the list, reset every node in
run order collecting non-`None` results, then handle the signals. -/
def reset (_list_signal_prev : List Signal) (resets : List (Option CallOutcome)) :
    List Signal × Option Signal :=
  let cleared : List Signal := []
  let list_signal := cleared ++ (resets.map node_reset).reduceOption
  (list_signal, handle_signals list_signal)

/-- `step(list_node, list_signal)`: clear the list, step every node in run
order collecting non-`None` results, then handle the signals. -/
def step (_list_signal_prev : List Signal) (steps : List (Option CallOutcome)) :
    List Signal × Option Signal :=
  let cleared : List Signal := []
  let list_signal := cleared ++ (steps.map node_step).reduceOption
  (list_signal, handle_signals list_signal)

/-- Rank of a signal in the priority order: `0` is the highest priority.
Every signal class appears in `priority_order`. -/
def priority_rank (s : Signal) : Nat :=
  priority_order.indexOf s.name

theorem signal_name_mem_priority_order (s : Signal) : s.name ∈ priority_order := by
  cases s <;> simp [Signal.name, priority_order]

theorem priority_rank_lt_three (s : Signal) : priority_rank s < 3 := by
  cases s <;> simp [priority_rank, Signal.name, priority_order, List.indexOf, List.findIdx,
    List.findIdx.go]

/-- Elimination form for the three signal classes, relating the class name
to its rank in the priority order. -/
theorem priority_rank_cases (s : Signal) :
    (s.name = "NonRecoverableError" ∧ priority_rank s = 0) ∨
    (s.name = "Halt" ∧ priority_rank s = 1) ∨
    (s.name = "ResetAndRetry" ∧ priority_rank s = 2) := by
  cases s
  · exact Or.inl ⟨rfl, rfl⟩
  · exact Or.inr (Or.inl ⟨rfl, rfl⟩)
  · exact Or.inr (Or.inr ⟨rfl, rfl⟩)

/-- `_handle_signals` on a non-empty list raises the first signal, in list
order, of the highest-priority class present in the list. -/
theorem handle_signals_spec (l : List Signal) (h : l ≠ []) :
    ∃ s, handle_signals l = some s ∧ s ∈ l ∧
      ∀ t ∈ l, priority_rank s ≤ priority_rank t := by
  have hne : l.isEmpty = false := by
    cases l with
    | nil => exact absurd rfl h
    | cons a as => rfl
  rcases hNRE : l.find? fun signal => signal.name == "NonRecoverableError" with _ | s
  · rcases hH : l.find? fun signal => signal.name == "Halt" with _ | s
    · rcases hR : l.find? fun signal => signal.name == "ResetAndRetry" with _ | s
      · exfalso
        obtain ⟨t, ht⟩ := List.exists_mem_of_ne_nil l h
        have hnre := List.find?_eq_none.mp hNRE t ht
        have hh := List.find?_eq_none.mp hH t ht
        have hr := List.find?_eq_none.mp hR t ht
        cases t <;> simp [Signal.name] at hnre hh hr
      · refine ⟨s, ?_, List.mem_of_find?_eq_some hR, ?_⟩
        · simp [handle_signals, hne, priority_order, List.findSome?, hNRE, hH, hR]
        · intro t ht
          have hs : s.name = "ResetAndRetry" := by
            have := List.find?_some hR
            simpa using this
          have hrs : priority_rank s = 2 := by
            rcases priority_rank_cases s with ⟨h1, _⟩ | ⟨h1, _⟩ | ⟨_, h2⟩
            · rw [hs] at h1; exact absurd h1 (by decide)
            · rw [hs] at h1; exact absurd h1 (by decide)
            · exact h2
          have hnre := List.find?_eq_none.mp hNRE t ht
          have hh := List.find?_eq_none.mp hH t ht
          have hrt : priority_rank t = 2 := by
            rcases priority_rank_cases t with ⟨h1, _⟩ | ⟨h1, _⟩ | ⟨_, h2⟩
            · rw [h1] at hnre; simp at hnre
            · rw [h1] at hh; simp at hh
            · exact h2
          rw [hrs, hrt]
    · refine ⟨s, ?_, List.mem_of_find?_eq_some hH, ?_⟩
      · simp [handle_signals, hne, priority_order, List.findSome?, hNRE, hH]
      · intro t ht
        have hs : s.name = "Halt" := by
          have := List.find?_some hH
          simpa using this
        have hrs : priority_rank s = 1 := by
          rcases priority_rank_cases s with ⟨h1, _⟩ | ⟨_, h2⟩ | ⟨h1, _⟩
          · rw [hs] at h1; exact absurd h1 (by decide)
          · exact h2
          · rw [hs] at h1; exact absurd h1 (by decide)
        have hnre := List.find?_eq_none.mp hNRE t ht
        have hrt : 1 ≤ priority_rank t := by
          rcases priority_rank_cases t with ⟨h1, _⟩ | ⟨_, h2⟩ | ⟨_, h2⟩
          · rw [h1] at hnre; simp at hnre
          · rw [h2]
          · rw [h2]; exact Nat.le_succ 1
        rw [hrs]; exact hrt
  · refine ⟨s, ?_, List.mem_of_find?_eq_some hNRE, ?_⟩
    · simp [handle_signals, hne, priority_order, List.findSome?, hNRE]
    · intro t ht
      have hs : s.name = "NonRecoverableError" := by
        have := List.find?_some hNRE
        simpa using this
      have hrs : priority_rank s = 0 := by
        rcases priority_rank_cases s with ⟨_, h2⟩ | ⟨h1, _⟩ | ⟨h1, _⟩
        · exact h2
        · rw [hs] at h1; exact absurd h1 (by decide)
        · rw [hs] at h1; exact absurd h1 (by decide)
      rw [hrs]; exact Nat.zero_le _

/-- C1 (confirmed).  In every scheduler pass — a reset of all nodes or a
single step over all nodes in tranche order — whose collected signal list
is non-empty, the scheduler raises exactly the highest-priority signal
present (priority order `NonRecoverableError`, `Halt`, `ResetAndRetry`);
every signal of strictly lower priority collected in the same pass is
discarded and is not the raised signal. -/
theorem scheduler_pass_raises_highest_priority_signal
    (prev : List Signal) (steps : List (Option CallOutcome))
    (resets : List (Option CallOutcome)) :
    ((step prev steps).1 ≠ [] →
      ∃ s, (step prev steps).2 = some s ∧ s ∈ (step prev steps).1 ∧
        (∀ t ∈ (step prev steps).1, priority_rank s ≤ priority_rank t) ∧
        (∀ t ∈ (step prev steps).1, priority_rank s < priority_rank t →
          (step prev steps).2 ≠ some t)) ∧
    ((reset prev resets).1 ≠ [] →
      ∃ s, (reset prev resets).2 = some s ∧ s ∈ (reset prev resets).1 ∧
        (∀ t ∈ (reset prev resets).1, priority_rank s ≤ priority_rank t) ∧
        (∀ t ∈ (reset prev resets).1, priority_rank s < priority_rank t →
          (reset prev resets).2 ≠ some t)) := by
  constructor
  · intro h
    obtain ⟨s, hs, hmem, hmin⟩ := handle_signals_spec (step prev steps).1 h
    have h2 : (step prev steps).2 = handle_signals (step prev steps).1 := rfl
    refine ⟨s, h2.trans hs, hmem, hmin, ?_⟩
    intro t _ hlt heq
    rw [h2, hs] at heq
    have : s = t := Option.some.inj heq
    rw [this] at hlt
    exact Nat.lt_irrefl _ hlt
  · intro h
    obtain ⟨s, hs, hmem, hmin⟩ := handle_signals_spec (reset prev resets).1 h
    have h2 : (reset prev resets).2 = handle_signals (reset prev resets).1 := rfl
    refine ⟨s, h2.trans hs, hmem, hmin, ?_⟩
    intro t _ hlt heq
    rw [h2, hs] at heq
    have : s = t := Option.some.inj heq
    rw [this] at hlt
    exact Nat.lt_irrefl _ hlt

/-- Witness for C1: a concrete step pass collecting `[Halt 0, ResetAndRetry]`
raises the `Halt` signal, the highest-priority signal present. -/
theorem scheduler_pass_raises_highest_priority_signal_witness :
    (step [] [some (.ret (some (.halt 0))), some (.ret (some .resetAndRetry))]).1 ≠ [] ∧
    ∃ s, (step [] [some (.ret (some (.halt 0))), some (.ret (some .resetAndRetry))]).2 = some s ∧
      s ∈ (step [] [some (.ret (some (.halt 0))), some (.ret (some .resetAndRetry))]).1 ∧
      (∀ t ∈ (step [] [some (.ret (some (.halt 0))), some (.ret (some .resetAndRetry))]).1,
        priority_rank s ≤ priority_rank t) ∧
      (∀ t ∈ (step [] [some (.ret (some (.halt 0))), some (.ret (some .resetAndRetry))]).1,
        priority_rank s < priority_rank t →
        (step [] [some (.ret (some (.halt 0))), some (.ret (some .resetAndRetry))]).2 ≠ some t) :=
  ⟨by decide,
   (scheduler_pass_raises_highest_priority_signal []
     [some (.ret (some (.halt 0))), some (.ret (some .resetAndRetry))] []).1 (by decide)⟩

/-- C10 (confirmed).  Each pass clears the shared signal list before any
node runs: the collected list and the raised signal depend only on the
signals emitted during the pass (in tranche order) and never on the
contents left over from an earlier pass, and after the pass the list holds
exactly the non-`None` signals emitted during the pass. -/
theorem signal_list_cleared_each_pass
    (prev prev' : List Signal) (steps_em resets_em : List (Option CallOutcome)) :
    step prev steps_em = step prev' steps_em ∧
    (step prev steps_em).1 = (steps_em.map node_step).reduceOption ∧
    (step prev steps_em).2 = handle_signals ((steps_em.map node_step).reduceOption) ∧
    reset prev resets_em = reset prev' resets_em ∧
    (reset prev resets_em).1 = (resets_em.map node_reset).reduceOption ∧
    (∀ em₂, step ((step prev steps_em).1) em₂ = step [] em₂) ∧
    (∀ em₂, step ((reset prev resets_em).1) em₂ = step [] em₂) := by
  refine ⟨rfl, rfl, rfl, rfl, rfl, fun _ => rfl, fun _ => rfl⟩

/-- C4 (code bug).  Evaluation of the embedded code at the failing input:
`_call_reset` correctly adapts returned signals, raised signals and
converted exceptions, but `Node.reset` has no `return` statement, so the
scheduler's reset pass receives `None` from every node and raises nothing
even when a node's reset function produced `Halt(0)`. -/
theorem node_reset_discards_signal :
    call_reset (some (.ret (some (.halt 0)))) = some (.halt 0) ∧
    call_reset (some (.raiseSignal (.halt 0))) = some (.halt 0) ∧
    call_reset (some (.raiseOther "ValueError")) =
      some (.nonRecoverableError "ValueError") ∧
    node_reset (some (.ret (some (.halt 0)))) = none ∧
    node_reset (some (.raiseSignal (.halt 0))) = none ∧
    node_reset (some (.raiseOther "ValueError")) = none ∧
    (reset [] [some (.ret (some (.halt 0)))]).1 = [] ∧
    (reset [] [some (.ret (some (.halt 0)))]).2 = none :=
  ⟨rfl, rfl, rfl, rfl, rfl, rfl, rfl, rfl⟩

/-! ## Transport factory (`xact/host/__init__.py`) -/

/-- The fields of a denormalised edge configuration that
`connect_queues` and its helpers read. -/
structure HostCfgEdge where
  id_edge       : String
  list_id_host  : List String
  ipc_type      : String
  id_host_owner : String
deriving DecidableEq, Repr

/-- The dict `map_id_by_class` as initialised at the top of
`_group_edges_by_class`: exactly four keys, each bound to an empty set. -/
def class_map_init : List (String × List String) :=
  [("intra_process", []), ("inter_process", []),
   ("inter_host_server", []), ("inter_host_client", [])]

/-- `map_id_by_class[key].add(id_edge)`: Python raises `KeyError` when the
key is absent from the dict; otherwise the edge id is added to the set
stored under the key. -/
def class_map_add (m : List (String × List String)) (key id_edge : String) :
    Except String (List (String × List String)) :=
  if (m.lookup key).isSome then
    .ok (m.map fun p =>
      if p.1 == key then (p.1, if p.2.contains id_edge then p.2 else p.2 ++ [id_edge]) else p)
  else
    .error ("KeyError: " ++ key)

/-- `_group_edges_by_class`: group the ids of the edges that touch the
local host into the four edge classes.  The source computes `queue_type`
(server/client resolution for inter-host edges) but then indexes the dict
with `cfg_edge['ipc_type']` instead of `queue_type`. -/
def _group_edges_by_class (edges : List HostCfgEdge) (id_host_local : String) :
    Except String (List (String × List String)) :=
  edges.foldlM
    (fun map_id_by_class cfg_edge =>
      let is_on_host_local := cfg_edge.list_id_host.contains id_host_local
      if ¬ is_on_host_local then
        pure map_id_by_class
      else
        let queue_type :=
          if cfg_edge.ipc_type == "inter_host" then
            if id_host_local == cfg_edge.id_host_owner then "inter_host_server"
            else "inter_host_client"
          else
            cfg_edge.ipc_type
        let _ := queue_type
        class_map_add map_id_by_class cfg_edge.ipc_type cfg_edge.id_edge)
    class_map_init

/-- A queue endpoint as instantiated by `_construct_queues`: the resolved
implementation module together with the edge and local-host ids passed to
its constructor. -/
structure Endpoint where
  impl_module   : String
  id_edge       : String
  id_host_local : String
deriving DecidableEq, Repr

/-- `dict[k] = v` on an association list: overwrite in place, or append. -/
def assocSet {α : Type} (m : List (String × α)) (k : String) (v : α) :
    List (String × α) :=
  if (m.lookup k).isSome then
    m.map fun p => if p.1 == k then (k, v) else p
  else
    m ++ [(k, v)]

/-- `_construct_queues`: for each configured class implementation,
instantiate one endpoint per edge id grouped under that class, returning
the mapping `id_edge → endpoint`.  (`cfg_queue` is `cfg['queue']`: the
mapping from edge class to implementation module; module import is an
external effect and the imported module is embedded by its name.) -/
def _construct_queues (cfg_queue : List (String × String))
    (map_id_by_class : List (String × List String)) (id_host_local : String) :
    Except String (List (String × Endpoint)) :=
  cfg_queue.foldlM
    (fun map_queues p =>
      match map_id_by_class.lookup p.1 with
      | none     => .error ("KeyError: " ++ p.1)
      | some ids => .ok (ids.foldl
          (fun m id_edge => assocSet m id_edge ⟨p.2, id_edge, id_host_local⟩)
          map_queues))
    []

/-- C3 (code bug).  Evaluation at the failing input: an inter-host edge
touching the local host makes `_group_edges_by_class` raise
`KeyError: inter_host` (the computed `queue_type` is never used as the
dict key), instead of classifying the edge as `inter_host_server` on the
owner host and `inter_host_client` elsewhere.  Purely local edge classes
are grouped as the claim describes. -/
theorem group_edges_by_class_keyerror_on_inter_host :
    _group_edges_by_class
      [⟨"n1.outputs.o-n2.inputs.i", ["h1", "h2"], "inter_host", "h1"⟩] "h1" =
      .error "KeyError: inter_host" ∧
    _group_edges_by_class
      [⟨"n1.outputs.o-n2.inputs.i", ["h1", "h2"], "inter_host", "h1"⟩] "h2" =
      .error "KeyError: inter_host" ∧
    _group_edges_by_class
      [⟨"n1.outputs.o-n2.inputs.i", ["h1", "h1"], "intra_process", "h1"⟩] "h1" =
      .ok [("intra_process", ["n1.outputs.o-n2.inputs.i"]), ("inter_process", []),
           ("inter_host_server", []), ("inter_host_client", [])] ∧
    _group_edges_by_class
      [⟨"n1.outputs.o-n2.inputs.i", ["h1", "h1"], "inter_process", "h1"⟩] "h1" =
      .ok [("intra_process", []), ("inter_process", ["n1.outputs.o-n2.inputs.i"]),
           ("inter_host_server", []), ("inter_host_client", [])] :=
  ⟨rfl, rfl, rfl, rfl⟩

/-! ## Run-order computation (`xact/proc/__init__.py`, `xact/util/__init__.py`) -/

/-- The fields of a denormalised edge configuration read by
`_local_acyclic_data_flow` and `_configure_edges`. -/
structure CfgEdge where
  id_node_src     : String
  id_node_dst     : String
  dirn            : String
  ipc_type        : String
  list_id_process : List String
deriving DecidableEq, Repr

/-- `_local_acyclic_data_flow`: the dependency pairs (upstream node,
downstream node) entered into the adjacency maps for the given process.
A feedforward intra-process local edge contributes `(src, dst)`; a
feedback edge is entered with the direction reversed, contributing
`(dst, src)`.  The source materialises the pair of mutually inverse
adjacency dicts `map_forward` / `map_backward`; here the underlying set
of pairs is returned and the two dicts are the derived lookups
`map_forward` and `map_backward` below. -/
def _local_acyclic_data_flow (iter_cfg_edge : List CfgEdge) (id_process : String) :
    List (String × String) :=
  iter_cfg_edge.filterMap fun cfg_edge =>
    let is_feedforward   := cfg_edge.dirn == "feedforward"
    let is_intra_process := cfg_edge.ipc_type == "intra_process"
    let is_local_process := cfg_edge.list_id_process.contains id_process
    if is_intra_process && is_local_process then
      if is_feedforward then
        some (cfg_edge.id_node_src, cfg_edge.id_node_dst)
      else
        some (cfg_edge.id_node_dst, cfg_edge.id_node_src)
    else
      none

/-- `map_forward[u]`: the set of downstream neighbours of `u`. -/
def map_forward (deps : List (String × String)) (u : String) : List String :=
  ((deps.filter fun p => p.1 == u).map Prod.snd).dedup

/-- `map_backward[v]`: the set of upstream neighbours of `v`. -/
def map_backward (deps : List (String × String)) (v : String) : List String :=
  ((deps.filter fun p => p.2 == v).map Prod.fst).dedup

/-- `_nodes_at_count_zero`: keys of the indegree dict with count zero. -/
def _nodes_at_count_zero (map_indegree : List (String × Nat)) : List String :=
  (map_indegree.filter fun p => p.2 == 0).map Prod.fst

/-- `_del_items`: delete the given keys from the indegree dict. -/
def _del_items (map_data : List (String × Nat)) (set_keys : List String) :
    List (String × Nat) :=
  map_data.filter fun p => ¬ set_keys.contains p.1

/-- `_list_downstream_neighbors`: downstream neighbours of the given
nodes, one occurrence per adjacency-map entry. -/
def _list_downstream_neighbors (set_id_node : List String)
    (deps : List (String × String)) : List String :=
  (set_id_node.map fun u => map_forward deps u).flatten

/-- `map_indegree[id_node] -= 1` for each listed node, in order. -/
def decrement_indegree (m : List (String × Nat)) (ids : List String) :
    List (String × Nat) :=
  ids.foldl
    (fun m id_node => m.map fun p => if p.1 = id_node then (p.1, p.2 - 1) else p)
    m

/-- The `while True` loop of `topological_sort`, with explicit fuel: the
loop deletes a non-empty rank from the indegree dict on every iteration,
so `|map_indegree| + 1` iterations always suffice. -/
def kahn_loop (deps : List (String × String)) :
    Nat → List (String × Nat) → List String → List (List String) → List (List String)
  | 0, _, _, list_set_ranks => list_set_ranks
  | fuel + 1, map_indegree, set_prev, list_set_ranks =>
      let m := decrement_indegree map_indegree (_list_downstream_neighbors set_prev deps)
      let set_next := _nodes_at_count_zero m
      if set_next.isEmpty then
        list_set_ranks
      else
        kahn_loop deps fuel (_del_items m set_next) set_next (list_set_ranks ++ [set_next])

/-- `set_node_out`: nodes with at least one outbound edge. -/
def set_node_out (deps : List (String × String)) : List String :=
  (deps.map Prod.fst).dedup

/-- `set_node_in`: nodes with at least one inbound edge. -/
def set_node_in (deps : List (String × String)) : List String :=
  (deps.map Prod.snd).dedup

/-- `set_node_sources = set_node_out - set_node_in`. -/
def set_node_sources (deps : List (String × String)) : List String :=
  (set_node_out deps).filter fun u => ¬ (set_node_in deps).contains u

/-- The initial indegree dict: zero for every source, `len(inbound)` for
every node with inbound edges. -/
def map_indegree_init (deps : List (String × String)) : List (String × Nat) :=
  (set_node_sources deps).map (fun u => (u, 0))
    ++ (set_node_in deps).map (fun v => (v, (map_backward deps v).length))

/-- `topological_sort`: Kahn-style sort returning the list of ranks
(tranches). -/
def topological_sort (deps : List (String × String)) : List (List String) :=
  let set_rank_zero := _nodes_at_count_zero (map_indegree_init deps)
  let m1 := _del_items (map_indegree_init deps) set_rank_zero
  kahn_loop deps (m1.length + 1) m1 set_rank_zero [set_rank_zero]

/-- Lexicographic comparison of character lists by code point; Python's
`<` on strings. -/
def strv_lt : List Char → List Char → Bool
  | [], [] => false
  | [], _ :: _ => true
  | _ :: _, [] => false
  | c :: cs, d :: ds =>
      if Nat.blt c.toNat d.toNat then true
      else if Nat.blt d.toNat c.toNat then false
      else strv_lt cs ds

/-- Python's `<=` on strings. -/
def str_le (a b : String) : Bool := !(strv_lt b.data a.data)

/-- The order used by Python's `sorted` on string ids. -/
def str_le_rel (a b : String) : Prop := str_le a b = true

instance (a b : String) : Decidable (str_le_rel a b) := by
  unfold str_le_rel; infer_instance

/-- Python's `sorted` on a list of string ids. -/
def py_sorted (l : List String) : List String :=
  List.insertionSort str_le_rel l

/-- `_specify_detailed_execution_order`: flatten the tranches, sorting
each tranche lexicographically by node id. -/
def _specify_detailed_execution_order (list_tranches : List (List String)) :
    List String :=
  (list_tranches.map fun tranche => py_sorted tranche).flatten

/-- `_get_list_id_node_unscheduled`: nodes of the process that were not
covered by the sort, in node-map order.  (`map_cfg_node` maps each node
id to the `process` field of its configuration, the only field read.) -/
def _get_list_id_node_unscheduled (map_cfg_node : List (String × String))
    (list_id_node : List String) (id_process : String) : List String :=
  (map_cfg_node.filter fun p =>
    p.2 == id_process && !(list_id_node.contains p.1)).map Prod.fst

/-- `_get_list_id_node_in_runorder`: the scheduler's node execution
order: sorted tranches of the topological sort, then the unscheduled
nodes of the process sorted by id. -/
def _get_list_id_node_in_runorder (id_process : String)
    (map_cfg_node : List (String × String)) (iter_cfg_edge : List CfgEdge) :
    List String :=
  let deps := _local_acyclic_data_flow iter_cfg_edge id_process
  let list_tranches := topological_sort deps
  let list_id_node := _specify_detailed_execution_order list_tranches
  list_id_node ++ py_sorted
    (_get_list_id_node_unscheduled map_cfg_node list_id_node id_process)

/-- `a` occurs before `b` in the list. -/
def precedes (l : List String) (a b : String) : Prop :=
  a ∈ l ∧ b ∈ l ∧ l.indexOf a < l.indexOf b

instance (l : List String) (a b : String) : Decidable (precedes l a b) := by
  unfold precedes; infer_instance

/-- The dependency relation of a pair list. -/
def depRel (deps : List (String × String)) (a b : String) : Prop := (a, b) ∈ deps

/-- The pair list describes a directed acyclic graph: no node reaches
itself through a non-empty path. -/
def AcyclicPairs (deps : List (String × String)) : Prop :=
  ∀ v, ¬ Relation.TransGen (depRel deps) v v

/-- The feedforward intra-process subgraph for one process, stated as in
the claim: one pair `(src, dst)` per feedforward intra-process local
edge. -/
def feedforward_subgraph (iter_cfg_edge : List CfgEdge) (id_process : String) :
    List (String × String) :=
  iter_cfg_edge.filterMap fun cfg_edge =>
    if cfg_edge.dirn == "feedforward" && cfg_edge.ipc_type == "intra_process"
        && cfg_edge.list_id_process.contains id_process then
      some (cfg_edge.id_node_src, cfg_edge.id_node_dst)
    else
      none

/-- Acyclicity of a single-edge graph with distinct endpoints. -/
theorem acyclicPairs_single {x y : String} (hxy : x ≠ y) : AcyclicPairs [(x, y)] := by
  intro v hv
  have key : ∀ a b, Relation.TransGen (depRel [(x, y)]) a b → a = x ∧ b = y := by
    intro a b h
    induction h with
    | single h =>
        simp only [depRel, List.mem_singleton, Prod.mk.injEq] at h
        exact ⟨h.1, h.2⟩
    | tail _ h ih =>
        simp only [depRel, List.mem_singleton, Prod.mk.injEq] at h
        exact ⟨ih.1, h.2⟩
  obtain ⟨h1, h2⟩ := key v v hv
  rw [h1] at h2
  exact hxy h2

/-- C2 counterexample.  In a process with nodes `a`, `b`, a feedforward
intra-process edge `b → a` and a feedback intra-process edge `b → a`, the
feedforward subgraph is a DAG (the single edge `b → a`), yet the computed
run order is `[a, b]`: `b` does not precede `a`, so the run order is not a
linear extension of the feedforward DAG. -/
theorem runorder_not_linear_extension_at_input :
    AcyclicPairs (feedforward_subgraph
      [⟨"b", "a", "feedforward", "intra_process", ["p"]⟩,
       ⟨"b", "a", "feedback", "intra_process", ["p"]⟩] "p") ∧
    feedforward_subgraph
      [⟨"b", "a", "feedforward", "intra_process", ["p"]⟩,
       ⟨"b", "a", "feedback", "intra_process", ["p"]⟩] "p" = [("b", "a")] ∧
    _get_list_id_node_in_runorder "p" [("a", "p"), ("b", "p")]
      [⟨"b", "a", "feedforward", "intra_process", ["p"]⟩,
       ⟨"b", "a", "feedback", "intra_process", ["p"]⟩] = ["a", "b"] ∧
    ¬ precedes (_get_list_id_node_in_runorder "p" [("a", "p"), ("b", "p")]
      [⟨"b", "a", "feedforward", "intra_process", ["p"]⟩,
       ⟨"b", "a", "feedback", "intra_process", ["p"]⟩]) "b" "a" := by
  refine ⟨?_, rfl, rfl, ?_⟩
  · have h : feedforward_subgraph
        [⟨"b", "a", "feedforward", "intra_process", ["p"]⟩,
         ⟨"b", "a", "feedback", "intra_process", ["p"]⟩] "p" = [("b", "a")] := rfl
    rw [h]
    exact acyclicPairs_single (by decide)
  · decide

/-- C7 counterexample.  Adding a single feedback intra-process edge
`a → b` to an edgeless process changes the computed run order from
`[a, b]` to `[b, a]`: feedback edges are not excluded from the sort and
do create scheduling dependencies. -/
theorem runorder_changes_with_feedback_edge :
    _get_list_id_node_in_runorder "p" [("a", "p"), ("b", "p")]
      [⟨"a", "b", "feedback", "intra_process", ["p", "p"]⟩] = ["b", "a"] ∧
    _get_list_id_node_in_runorder "p" [("a", "p"), ("b", "p")] [] = ["a", "b"] ∧
    _get_list_id_node_in_runorder "p" [("a", "p"), ("b", "p")]
      [⟨"a", "b", "feedback", "intra_process", ["p", "p"]⟩] ≠
      _get_list_id_node_in_runorder "p" [("a", "p"), ("b", "p")] [] :=
  ⟨rfl, rfl, by decide⟩

/-! ### Order theory for the lexicographic comparator -/

theorem strv_lt_irrefl (a : List Char) : strv_lt a a = false := by
  induction a with
  | nil => rfl
  | cons c cs ih => simp [strv_lt, Nat.blt_eq, ih]

theorem strv_lt_asymm : ∀ {a b : List Char}, strv_lt a b = true → strv_lt b a = false := by
  intro a
  induction a with
  | nil =>
      intro b h
      cases b with
      | nil => simp [strv_lt] at h
      | cons d ds => rfl
  | cons c cs ih =>
      intro b h
      cases b with
      | nil => simp [strv_lt] at h
      | cons d ds =>
          by_cases hcd : c.toNat < d.toNat
          · have hdc : ¬ d.toNat < c.toNat := Nat.lt_asymm hcd
            simp [strv_lt, Nat.blt_eq, hcd, hdc]
          · by_cases hdc : d.toNat < c.toNat
            · simp [strv_lt, Nat.blt_eq, hcd, hdc] at h
            · simp only [strv_lt, Nat.blt_eq, if_neg hcd, if_neg hdc] at h ⊢
              exact ih h

theorem char_eq_of_toNat_eq {c d : Char} (h : c.toNat = d.toNat) : c = d := by
  have hv : c.val = d.val := UInt32.ext h
  exact Char.ext hv

theorem strv_eq_of_not_lt : ∀ {a b : List Char},
    strv_lt a b = false → strv_lt b a = false → a = b := by
  intro a
  induction a with
  | nil =>
      intro b hab hba
      cases b with
      | nil => rfl
      | cons d ds => simp [strv_lt] at hab
  | cons c cs ih =>
      intro b hab hba
      cases b with
      | nil => simp [strv_lt] at hba
      | cons d ds =>
          by_cases hcd : c.toNat < d.toNat
          · simp [strv_lt, Nat.blt_eq, hcd] at hab
          · by_cases hdc : d.toNat < c.toNat
            · simp [strv_lt, Nat.blt_eq, hdc] at hba
            · have hc : c = d :=
                char_eq_of_toNat_eq (Nat.le_antisymm (Nat.not_lt.mp hdc) (Nat.not_lt.mp hcd))
              simp only [strv_lt, Nat.blt_eq, if_neg hcd, if_neg hdc] at hab
              simp only [strv_lt, Nat.blt_eq, if_neg hcd, if_neg hdc] at hba
              rw [hc, ih hab hba]

theorem strv_lt_trans : ∀ {a b c : List Char},
    strv_lt a b = true → strv_lt b c = true → strv_lt a c = true := by
  intro a
  induction a with
  | nil =>
      intro b c hab hbc
      cases b with
      | nil => simp [strv_lt] at hab
      | cons d ds =>
          cases c with
          | nil => simp [strv_lt] at hbc
          | cons e es => rfl
  | cons x xs ih =>
      intro b c hab hbc
      cases b with
      | nil => simp [strv_lt] at hab
      | cons d ds =>
          cases c with
          | nil => simp [strv_lt] at hbc
          | cons e es =>
              simp only [strv_lt, Nat.blt_eq] at hab hbc ⊢
              by_cases hxd : x.toNat < d.toNat
              · by_cases hde : d.toNat < e.toNat
                · simp [Nat.lt_trans hxd hde]
                · by_cases hed : e.toNat < d.toNat
                  · simp [hde, hed] at hbc
                  · have hde2 : d.toNat = e.toNat :=
                      Nat.le_antisymm (Nat.not_lt.mp hed) (Nat.not_lt.mp hde)
                    simp [hde2 ▸ hxd]
              · by_cases hdx : d.toNat < x.toNat
                · simp [hxd, hdx] at hab
                · have hxde : x.toNat = d.toNat :=
                    Nat.le_antisymm (Nat.not_lt.mp hdx) (Nat.not_lt.mp hxd)
                  simp only [if_neg hxd, if_neg hdx] at hab
                  by_cases hde : d.toNat < e.toNat
                  · simp [hxde ▸ hde]
                  · by_cases hed : e.toNat < d.toNat
                    · simp [hde, hed] at hbc
                    · simp only [if_neg hde, if_neg hed] at hbc
                      have hxe : ¬ x.toNat < e.toNat := by
                        rw [hxde]; exact hde
                      have hex : ¬ e.toNat < x.toNat := by
                        rw [hxde]; exact hed
                      simp only [if_neg hxe, if_neg hex]
                      exact ih hab hbc

instance : IsTotal String str_le_rel := by
  constructor
  intro a b
  by_cases h : strv_lt b.data a.data = true
  · right
    have := strv_lt_asymm h
    simp [str_le_rel, str_le, this]
  · left
    simp only [Bool.not_eq_true] at h
    simp [str_le_rel, str_le, h]

instance : IsTrans String str_le_rel := by
  constructor
  intro a b c hab hbc
  simp only [str_le_rel, str_le, Bool.not_eq_true'] at hab hbc ⊢
  by_cases hca : strv_lt c.data a.data = true
  · by_cases hbc' : strv_lt b.data c.data = true
    · have := strv_lt_trans hbc' hca
      rw [this] at hab
      exact absurd hab (by simp)
    · simp only [Bool.not_eq_true] at hbc'
      have : b.data = c.data := strv_eq_of_not_lt hbc' hbc
      rw [← this] at hca
      rw [hca] at hab
      exact absurd hab (by simp)
  · simp only [Bool.not_eq_true] at hca
    exact hca

/-- `py_sorted` sorts its input. -/
theorem py_sorted_sorted (l : List String) : List.Sorted str_le_rel (py_sorted l) :=
  List.sorted_insertionSort str_le_rel l

/-- `py_sorted` permutes its input. -/
theorem py_sorted_perm (l : List String) : List.Perm (py_sorted l) l :=
  List.perm_insertionSort str_le_rel l

/-! ### Properties of the run-order computation -/

/-- Keys of the initial indegree dict: all nodes touched by some
dependency pair. -/
def all_keys (deps : List (String × String)) : List String :=
  set_node_sources deps ++ set_node_in deps

theorem contains_iff {l : List String} {a : String} : l.contains a = true ↔ a ∈ l := by
  simp [List.contains]

theorem mem_map_forward {deps : List (String × String)} {u v : String} :
    v ∈ map_forward deps u ↔ (u, v) ∈ deps := by
  simp only [map_forward, List.mem_dedup, List.mem_map, List.mem_filter]
  constructor
  · rintro ⟨⟨a, b⟩, ⟨hmem, heq⟩, rfl⟩
    have ha : a = u := by simpa using heq
    simpa [ha] using hmem
  · intro h
    exact ⟨(u, v), ⟨h, by simp⟩, rfl⟩

theorem mem_map_backward {deps : List (String × String)} {u v : String} :
    u ∈ map_backward deps v ↔ (u, v) ∈ deps := by
  simp only [map_backward, List.mem_dedup, List.mem_map, List.mem_filter]
  constructor
  · rintro ⟨⟨a, b⟩, ⟨hmem, heq⟩, rfl⟩
    have hb : b = v := by simpa using heq
    simpa [hb] using hmem
  · intro h
    exact ⟨(u, v), ⟨h, by simp⟩, rfl⟩

theorem nodup_map_forward (deps : List (String × String)) (u : String) :
    (map_forward deps u).Nodup := List.nodup_dedup _

theorem nodup_map_backward (deps : List (String × String)) (v : String) :
    (map_backward deps v).Nodup := List.nodup_dedup _

theorem mem_set_node_out {deps : List (String × String)} {u : String} :
    u ∈ set_node_out deps ↔ ∃ v, (u, v) ∈ deps := by
  simp only [set_node_out, List.mem_dedup, List.mem_map]
  constructor
  · rintro ⟨⟨a, b⟩, hmem, rfl⟩
    exact ⟨b, hmem⟩
  · rintro ⟨v, hv⟩
    exact ⟨(u, v), hv, rfl⟩

theorem mem_set_node_in {deps : List (String × String)} {v : String} :
    v ∈ set_node_in deps ↔ ∃ u, (u, v) ∈ deps := by
  simp only [set_node_in, List.mem_dedup, List.mem_map]
  constructor
  · rintro ⟨⟨a, b⟩, hmem, rfl⟩
    exact ⟨a, hmem⟩
  · rintro ⟨u, hu⟩
    exact ⟨(u, v), hu, rfl⟩

theorem map_backward_eq_nil_of_not_in {deps : List (String × String)} {v : String}
    (h : v ∉ set_node_in deps) : map_backward deps v = [] := by
  cases hmb : map_backward deps v with
  | nil => rfl
  | cons u us =>
      have hu : u ∈ map_backward deps v := by rw [hmb]; exact List.mem_cons_self _ _
      exact absurd (mem_set_node_in.mpr ⟨u, mem_map_backward.mp hu⟩) h

theorem nodup_all_keys (deps : List (String × String)) : (all_keys deps).Nodup := by
  have h1 : (set_node_sources deps).Nodup := (List.nodup_dedup _).filter _
  have h2 : (set_node_in deps).Nodup := List.nodup_dedup _
  refine List.Nodup.append h1 h2 ?_
  intro x hx hx2
  simp only [set_node_sources, List.mem_filter] at hx
  have h2 : ¬ (x ∈ set_node_in deps) := by simpa [contains_iff] using hx.2
  exact h2 hx2

theorem mem_all_keys {deps : List (String × String)} {x : String} :
    x ∈ all_keys deps ↔ (∃ y, (x, y) ∈ deps) ∨ (∃ y, (y, x) ∈ deps) := by
  simp only [all_keys, List.mem_append]
  constructor
  · rintro (hx | hx)
    · simp only [set_node_sources, List.mem_filter] at hx
      exact Or.inl (mem_set_node_out.mp hx.1)
    · exact Or.inr (mem_set_node_in.mp hx)
  · rintro (⟨y, hy⟩ | ⟨y, hy⟩)
    · by_cases hin : x ∈ set_node_in deps
      · exact Or.inr hin
      · refine Or.inl ?_
        simp only [set_node_sources, List.mem_filter]
        refine ⟨mem_set_node_out.mpr ⟨y, hy⟩, ?_⟩
        simpa [contains_iff] using hin
    · exact Or.inr (mem_set_node_in.mpr ⟨y, hy⟩)

theorem fst_mem_all_keys {deps : List (String × String)} {u v : String}
    (h : (u, v) ∈ deps) : u ∈ all_keys deps :=
  mem_all_keys.mpr (Or.inl ⟨v, h⟩)

theorem snd_mem_all_keys {deps : List (String × String)} {u v : String}
    (h : (u, v) ∈ deps) : v ∈ all_keys deps :=
  mem_all_keys.mpr (Or.inr ⟨u, h⟩)

/-! ### Association-list lemmas for the indegree dict -/

theorem lookup_isSome_iff {β : Type} {m : List (String × β)} {k : String} :
    (m.lookup k).isSome ↔ k ∈ m.map Prod.fst := by
  induction m with
  | nil => simp [List.lookup]
  | cons p l ih =>
      obtain ⟨a, b⟩ := p
      by_cases h : k = a
      · simp [List.lookup, h]
      · have hb : (k == a) = false := by simpa using h
        simp [List.lookup, hb, ih, h]

theorem lookup_mem {β : Type} {m : List (String × β)} {k : String} {c : β}
    (h : m.lookup k = some c) : (k, c) ∈ m := by
  induction m with
  | nil => simp [List.lookup] at h
  | cons p l ih =>
      obtain ⟨a, b⟩ := p
      by_cases hk : k = a
      · subst hk
        simp only [List.lookup, beq_self_eq_true, Option.some.injEq] at h
        simp [h]
      · have hb : (k == a) = false := by simpa using hk
        rw [List.lookup, hb] at h
        exact List.mem_cons_of_mem _ (ih h)

theorem lookup_eq_some_of_mem_nodup {β : Type} {m : List (String × β)}
    (hnd : (m.map Prod.fst).Nodup) {k : String} {c : β} (h : (k, c) ∈ m) :
    m.lookup k = some c := by
  induction m with
  | nil => simp at h
  | cons p l ih =>
      obtain ⟨a, b⟩ := p
      simp only [List.map_cons, List.nodup_cons] at hnd
      rcases List.mem_cons.mp h with heq | hmem
      · cases heq
        simp [List.lookup]
      · have hka : k ≠ a := by
          rintro rfl
          exact hnd.1 (List.mem_map.mpr ⟨(k, c), hmem, rfl⟩)
        have hb : (k == a) = false := by simpa using hka
        rw [List.lookup, hb]
        exact ih hnd.2 hmem

theorem lookup_decrement_one {m : List (String × Nat)} {id_node k : String} :
    ((m.map fun p => if p.1 = id_node then (p.1, p.2 - 1) else p).lookup k) =
      if k = id_node then (m.lookup k).map (fun c => c - 1) else m.lookup k := by
  induction m with
  | nil => by_cases h : k = id_node <;> simp [List.lookup, h]
  | cons p l ih =>
      obtain ⟨a, b⟩ := p
      have hmap : (((a, b) :: l).map fun p => if p.1 = id_node then (p.1, p.2 - 1) else p) =
          (if a = id_node then (a, b - 1) else (a, b)) ::
            (l.map fun p => if p.1 = id_node then (p.1, p.2 - 1) else p) := rfl
      rw [hmap]
      by_cases ha : a = id_node
      · subst ha
        rw [if_pos rfl]
        by_cases hk : k = a
        · subst hk
          simp [List.lookup]
        · have hb : (k == a) = false := by simpa using hk
          simp only [List.lookup, hb, ih, if_neg hk]
      · rw [if_neg ha]
        by_cases hk : k = a
        · subst hk
          have hb : (k == k) = true := by simp
          simp only [List.lookup, hb, if_neg ha]
        · have hb : (k == a) = false := by simpa using hk
          simp only [List.lookup, hb, ih]

theorem lookup_decrement_indegree (m : List (String × Nat)) (ids : List String)
    (k : String) :
    (decrement_indegree m ids).lookup k = (m.lookup k).map (fun c => c - (ids.count k)) := by
  induction ids generalizing m with
  | nil =>
      simp only [decrement_indegree, List.foldl_nil, List.count_nil]
      cases m.lookup k <;> simp
  | cons id_node rest ih =>
      have hstep : decrement_indegree m (id_node :: rest) =
          decrement_indegree (m.map fun p => if p.1 = id_node then (p.1, p.2 - 1) else p)
            rest := rfl
      rw [hstep, ih, lookup_decrement_one]
      by_cases hk : k = id_node
      · subst hk
        rw [if_pos rfl, List.count_cons_self]
        cases m.lookup k with
        | none => rfl
        | some c =>
            show some (c - 1 - rest.count k) = some (c - (rest.count k + 1))
            congr 1
            omega
      · rw [if_neg hk]
        have hc : (id_node :: rest).count k = rest.count k := by
          simp [List.count_cons, Ne.symm hk]
        rw [hc]

theorem keys_decrement_one (m : List (String × Nat)) (id_node : String) :
    ((m.map fun p => if p.1 = id_node then (p.1, p.2 - 1) else p).map Prod.fst) =
      m.map Prod.fst := by
  rw [List.map_map]
  apply List.map_congr_left
  intro p _
  by_cases h : p.1 = id_node <;> simp [h]

theorem keys_decrement_indegree (m : List (String × Nat)) (ids : List String) :
    (decrement_indegree m ids).map Prod.fst = m.map Prod.fst := by
  induction ids generalizing m with
  | nil => rfl
  | cons id_node rest ih =>
      have hstep : decrement_indegree m (id_node :: rest) =
          decrement_indegree (m.map fun p => if p.1 = id_node then (p.1, p.2 - 1) else p)
            rest := rfl
      rw [hstep, ih, keys_decrement_one]

theorem lookup_del_items {m : List (String × Nat)} {s : List String} {k : String} :
    (_del_items m s).lookup k = if s.contains k then none else m.lookup k := by
  induction m with
  | nil =>
      simp only [_del_items, List.filter_nil]
      by_cases h : s.contains k <;> simp [List.lookup, h]
  | cons p l ih =>
      obtain ⟨a, b⟩ := p
      by_cases hsa : s.contains a = true
      · have hma : a ∈ s := contains_iff.mp hsa
        have hdel : _del_items ((a, b) :: l) s = _del_items l s := by
          simp [_del_items, List.filter_cons, hma]
        rw [hdel, ih]
        by_cases hk : k = a
        · subst hk
          rw [if_pos hsa, if_pos hsa]
        · by_cases hsk : s.contains k = true
          · rw [if_pos hsk, if_pos hsk]
          · have hb : (k == a) = false := by simpa using hk
            rw [if_neg hsk, if_neg hsk, List.lookup, hb]
      · have hma : a ∉ s := fun h => hsa (contains_iff.mpr h)
        have hdel : _del_items ((a, b) :: l) s = (a, b) :: _del_items l s := by
          simp [_del_items, List.filter_cons, hma]
        rw [hdel]
        by_cases hk : k = a
        · subst hk
          have h1 : List.lookup k ((k, b) :: _del_items l s) = some b := by
            simp [List.lookup]
          have h2 : List.lookup k ((k, b) :: l) = some b := by
            simp [List.lookup]
          rw [h1, if_neg hsa, h2]
        · have hb : (k == a) = false := by simpa using hk
          have h1 : List.lookup k ((a, b) :: _del_items l s) =
              List.lookup k (_del_items l s) := by
            rw [List.lookup, hb]
          have h2 : List.lookup k ((a, b) :: l) = List.lookup k l := by
            rw [List.lookup, hb]
          rw [h1, h2, ih]

theorem mem_keys_del_items {m : List (String × Nat)} {s : List String} {k : String} :
    k ∈ (_del_items m s).map Prod.fst ↔ k ∈ m.map Prod.fst ∧ k ∉ s := by
  rw [← lookup_isSome_iff, ← lookup_isSome_iff, lookup_del_items]
  by_cases hsk : s.contains k = true
  · simp [hsk, contains_iff.mp hsk]
  · have hk : k ∉ s := fun h => hsk (contains_iff.mpr h)
    simp [hsk, hk]

theorem nodup_keys_del_items {m : List (String × Nat)}
    (hnd : (m.map Prod.fst).Nodup) (s : List String) :
    ((_del_items m s).map Prod.fst).Nodup :=
  hnd.sublist ((List.filter_sublist m).map Prod.fst)

theorem mem_nodes_at_count_zero {m : List (String × Nat)} {v : String} :
    v ∈ _nodes_at_count_zero m ↔ (v, 0) ∈ m := by
  simp only [_nodes_at_count_zero, List.mem_map, List.mem_filter]
  constructor
  · rintro ⟨⟨a, b⟩, ⟨hmem, hz⟩, rfl⟩
    have : b = 0 := by simpa using hz
    simpa [this] using hmem
  · intro h
    exact ⟨(v, 0), ⟨h, by simp⟩, rfl⟩

theorem nodes_at_count_zero_subset_keys {m : List (String × Nat)} {v : String}
    (h : v ∈ _nodes_at_count_zero m) : v ∈ m.map Prod.fst :=
  List.mem_map.mpr ⟨(v, 0), mem_nodes_at_count_zero.mp h, rfl⟩

theorem nodup_nodes_at_count_zero {m : List (String × Nat)}
    (hnd : (m.map Prod.fst).Nodup) : (_nodes_at_count_zero m).Nodup := by
  have hsub : List.Sublist (_nodes_at_count_zero m) (m.map Prod.fst) := by
    unfold _nodes_at_count_zero
    exact (List.filter_sublist m).map Prod.fst
  exact hnd.sublist hsub

theorem count_downstream (deps : List (String × String)) (P : List String) (v : String) :
    (_list_downstream_neighbors P deps).count v =
      (P.filter fun u => decide ((u, v) ∈ deps)).length := by
  unfold _list_downstream_neighbors
  induction P with
  | nil => simp
  | cons u rest ih =>
      rw [List.map_cons, List.flatten_cons, List.count_append, ih, List.filter_cons]
      by_cases huv : (u, v) ∈ deps
      · have h1 : (map_forward deps u).count v = 1 :=
          List.count_eq_one_of_mem (nodup_map_forward deps u) (mem_map_forward.mpr huv)
        simp [huv, h1, Nat.add_comm]
      · have h1 : (map_forward deps u).count v = 0 :=
          List.count_eq_zero_of_not_mem (fun hm => huv (mem_map_forward.mp hm))
        simp [huv, h1]

/-- Two `Nodup` lists of strings with the same members have the same
length. -/
theorem length_eq_of_nodup_iff_mem {l₁ l₂ : List String} (h₁ : l₁.Nodup)
    (h₂ : l₂.Nodup) (h : ∀ x, x ∈ l₁ ↔ x ∈ l₂) : l₁.length = l₂.length :=
  ((List.perm_ext_iff_of_nodup h₁ h₂).mpr h).length_eq

/-- Number of predecessors of `v` not yet emitted (not in `E`). -/
def rem_count (deps : List (String × String)) (E : List String) (v : String) : Nat :=
  ((map_backward deps v).filter fun u => decide (u ∉ E)).length

theorem rem_count_split (deps : List (String × String)) (E P : List String)
    (hPnd : P.Nodup) (hdisj : ∀ x ∈ P, x ∉ E) (v : String) :
    rem_count deps E v =
      (P.filter fun u => decide ((u, v) ∈ deps)).length + rem_count deps (E ++ P) v := by
  classical
  have hBnd : (map_backward deps v).Nodup := nodup_map_backward deps v
  have hlen : ((((map_backward deps v).filter fun u => decide (u ∉ E)).filter
        fun u => decide (u ∈ P)).length) +
      ((((map_backward deps v).filter fun u => decide (u ∉ E)).filter
        fun u => !(decide (u ∈ P))).length) =
      rem_count deps E v := by
    have hperm := List.filter_append_perm (fun u => decide (u ∈ P))
      ((map_backward deps v).filter fun u => decide (u ∉ E))
    have hlen2 := hperm.length_eq
    simpa [rem_count, List.length_append] using hlen2
  have h1 : (((map_backward deps v).filter fun u => decide (u ∉ E)).filter
      fun u => decide (u ∈ P)).length =
      (P.filter fun u => decide ((u, v) ∈ deps)).length := by
    apply length_eq_of_nodup_iff_mem ((hBnd.filter _).filter _) (hPnd.filter _)
    intro x
    simp only [List.mem_filter, mem_map_backward, decide_eq_true_eq]
    constructor
    · rintro ⟨⟨hxB, _⟩, hxP⟩
      exact ⟨hxP, hxB⟩
    · rintro ⟨hxP, hxB⟩
      exact ⟨⟨hxB, hdisj x hxP⟩, hxP⟩
  have h2 : (((map_backward deps v).filter fun u => decide (u ∉ E)).filter
      fun u => !(decide (u ∈ P))).length = rem_count deps (E ++ P) v := by
    rw [List.filter_filter]
    unfold rem_count
    congr 1
    apply List.filter_congr
    intro x _
    by_cases hE : x ∈ E <;> by_cases hP : x ∈ P <;>
      simp [hE, hP, List.mem_append]
  omega

theorem rem_count_eq_zero_iff {deps : List (String × String)} {E : List String}
    {v : String} :
    rem_count deps E v = 0 ↔ ∀ u, (u, v) ∈ deps → u ∈ E := by
  unfold rem_count
  rw [List.length_eq_zero, List.filter_eq_nil_iff]
  constructor
  · intro h u huv
    have := h u (mem_map_backward.mpr huv)
    simpa using this
  · intro h u hu
    simp only [decide_eq_true_eq, Decidable.not_not]
    exact h u (mem_map_backward.mp hu)

theorem rem_count_ne_zero_exists {deps : List (String × String)} {E : List String}
    {v : String} (h : rem_count deps E v ≠ 0) :
    ∃ u, (u, v) ∈ deps ∧ u ∉ E := by
  by_contra hcon
  push_neg at hcon
  exact h (rem_count_eq_zero_iff.mpr fun u huv => hcon u huv)

/-- A finite non-empty set of nodes in which every node has a predecessor
inside the set contains a cycle. -/
theorem exists_cycle_of_forall_has_pred {r : String → String → Prop}
    {K : List String} (hne : K ≠ []) (h : ∀ v ∈ K, ∃ u ∈ K, r u v) :
    ∃ v, Relation.TransGen r v v := by
  classical
  have hstep : ∀ v : {x // x ∈ K}, ∃ u : {x // x ∈ K}, r u.val v.val := by
    rintro ⟨v, hv⟩
    obtain ⟨u, hu, hru⟩ := h v hv
    exact ⟨⟨u, hu⟩, hru⟩
  choose f hf using hstep
  obtain ⟨v₀, hv₀⟩ := List.exists_mem_of_ne_nil K hne
  let g : ℕ → {x // x ∈ K} := fun n => f^[n] ⟨v₀, hv₀⟩
  have hg : ∀ n, r (g (n + 1)).val (g n).val := by
    intro n
    have hit : g (n + 1) = f (g n) := Function.iterate_succ_apply' f n _
    rw [hit]
    exact hf (g n)
  have hchain : ∀ j i, i < j → Relation.TransGen r (g j).val (g i).val := by
    intro j
    induction j with
    | zero => intro i hi; omega
    | succ j ihj =>
        intro i hij
        rcases Nat.lt_succ_iff_lt_or_eq.mp hij with hlt | heq
        · exact Relation.TransGen.head (hg j) (ihj i hlt)
        · subst heq
          exact Relation.TransGen.single (hg i)
  have hpigeon : ∃ i ∈ Finset.range (K.length + 1), ∃ j ∈ Finset.range (K.length + 1),
      i ≠ j ∧ (g i).val = (g j).val := by
    have hmaps : ∀ n ∈ Finset.range (K.length + 1), (g n).val ∈ K.toFinset := by
      intro n _
      exact List.mem_toFinset.mpr (g n).property
    have hlt : K.toFinset.card < (Finset.range (K.length + 1)).card := by
      rw [Finset.card_range]
      exact Nat.lt_succ_of_le K.toFinset_card_le
    exact Finset.exists_ne_map_eq_of_card_lt_of_maps_to hlt hmaps
  obtain ⟨i, _, j, _, hij, hgeq⟩ := hpigeon
  rcases Nat.lt_or_ge i j with hlt | hge
  · refine ⟨(g j).val, ?_⟩
    have hcycle := hchain j i hlt
    rwa [hgeq] at hcycle
  · have hlt : j < i := Nat.lt_of_le_of_ne hge (fun hh => hij hh.symm)
    refine ⟨(g i).val, ?_⟩
    have hcycle := hchain i j hlt
    rwa [← hgeq] at hcycle

/-- Every rank only contains nodes all of whose predecessors appear in a
strictly earlier rank. -/
def RanksClosed (deps : List (String × String)) (R : List (List String)) : Prop :=
  ∀ u v, (u, v) ∈ deps → ∀ j, ∀ (hj : j < R.length), v ∈ R.get ⟨j, hj⟩ →
    ∃ i, ∃ (hi : i < R.length), i < j ∧ u ∈ R.get ⟨i, hi⟩

theorem ranksClosed_append {deps : List (String × String)}
    {R : List (List String)} {N : List String} (hR : RanksClosed deps R)
    (hN : ∀ v ∈ N, ∀ u, (u, v) ∈ deps → u ∈ R.flatten) :
    RanksClosed deps (R ++ [N]) := by
  intro u v huv j hj hvj
  by_cases hjR : j < R.length
  · have hget : (R ++ [N]).get ⟨j, hj⟩ = R.get ⟨j, hjR⟩ := by
      rw [List.get_append]
    rw [hget] at hvj
    obtain ⟨i, hi, hij, hui⟩ := hR u v huv j hjR hvj
    refine ⟨i, by simp; omega, hij, ?_⟩
    have hget2 : (R ++ [N]).get ⟨i, by simp; omega⟩ = R.get ⟨i, hi⟩ := by
      rw [List.get_append]
    rw [hget2]
    exact hui
  · have hje : j = R.length := by
      have := hj
      simp only [List.length_append, List.length_singleton] at this
      omega
    subst hje
    have hget : (R ++ [N]).get ⟨R.length, hj⟩ = N := by
      simp
    rw [hget] at hvj
    have hu : u ∈ R.flatten := hN v hvj u huv
    obtain ⟨l, hl, hul⟩ := List.mem_flatten.mp hu
    obtain ⟨n, hgl⟩ := List.mem_iff_get.mp hl
    have hn : n.val < R.length := n.isLt
    refine ⟨n.val, by simp; omega, by omega, ?_⟩
    have hget2 : (R ++ [N]).get ⟨n.val, by simp; omega⟩ = R.get n := by
      rw [List.get_append]
    rw [hget2, hgl]
    exact hul

/-- Invariant-carrying specification of the `while True` loop of
`topological_sort`: the accumulated rank list stays closed under
predecessors, its flattening stays duplicate-free inside the graph's
node set, and — when the dependency graph is acyclic — the loop emits
every node of the graph. -/
theorem kahn_loop_invariant (deps : List (String × String)) :
    ∀ (fuel : Nat) (m : List (String × Nat)) (P : List String) (A : List (List String)),
    m.length < fuel →
    ((m.map Prod.fst).Nodup) →
    (∀ k, k ∈ m.map Prod.fst ↔ (k ∈ all_keys deps ∧ k ∉ (A ++ [P]).flatten)) →
    (∀ v c, m.lookup v = some c → c = rem_count deps A.flatten v) →
    RanksClosed deps (A ++ [P]) →
    (((A ++ [P]).flatten).Nodup) →
    (∀ x ∈ (A ++ [P]).flatten, x ∈ all_keys deps) →
    (RanksClosed deps (kahn_loop deps fuel m P (A ++ [P])) ∧
     (kahn_loop deps fuel m P (A ++ [P])).flatten.Nodup ∧
     (∀ x ∈ (kahn_loop deps fuel m P (A ++ [P])).flatten, x ∈ all_keys deps) ∧
     (∀ x ∈ (A ++ [P]).flatten, x ∈ (kahn_loop deps fuel m P (A ++ [P])).flatten) ∧
     (AcyclicPairs deps → ∀ v ∈ all_keys deps,
        v ∈ (kahn_loop deps fuel m P (A ++ [P])).flatten)) := by
  intro fuel
  induction fuel with
  | zero =>
      intro m P A hfuel _ _ _ _ _ _
      omega
  | succ fuel ih =>
      intro m P A hfuel hnd hkeys hcounts hclosed hflatnd hflatsub
      have hflat_eq : (A ++ [P]).flatten = A.flatten ++ P := by simp
      have hnd2 : (A.flatten ++ P).Nodup := hflat_eq ▸ hflatnd
      have hPnd : P.Nodup := (List.nodup_append.mp hnd2).2.1
      have hdisj : ∀ x ∈ P, x ∉ A.flatten := by
        intro x hxP hxA
        exact (List.nodup_append.mp hnd2).2.2 hxA hxP
      set dec := _list_downstream_neighbors P deps with hdec
      set m' := decrement_indegree m dec with hm'
      have hkeys' : m'.map Prod.fst = m.map Prod.fst := keys_decrement_indegree m dec
      have hnd' : (m'.map Prod.fst).Nodup := by rw [hkeys']; exact hnd
      have hcounts' : ∀ v c, m'.lookup v = some c →
          c = rem_count deps (A.flatten ++ P) v := by
        intro v c h
        rw [hm', lookup_decrement_indegree] at h
        cases hmv : m.lookup v with
        | none => rw [hmv] at h; simp at h
        | some c0 =>
            rw [hmv] at h
            simp only [Option.map] at h
            have hc0 : c0 = rem_count deps A.flatten v := hcounts v c0 hmv
            have hcnt : dec.count v =
                (P.filter fun u => decide ((u, v) ∈ deps)).length := by
              rw [hdec]; exact count_downstream deps P v
            have hsplit := rem_count_split deps A.flatten P hPnd hdisj v
            have hceq : c = c0 - dec.count v := by
              injection h with h2
              omega
            omega
      set N := _nodes_at_count_zero m' with hNdef
      have hNmem : ∀ v, v ∈ N ↔ m'.lookup v = some 0 := by
        intro v
        rw [hNdef, mem_nodes_at_count_zero]
        constructor
        · intro hmem
          exact lookup_eq_some_of_mem_nodup hnd' hmem
        · intro hl
          exact lookup_mem hl
      have hNsubm : ∀ v ∈ N, v ∈ m.map Prod.fst := by
        intro v hv
        rw [← hkeys']
        exact nodes_at_count_zero_subset_keys (hNdef ▸ hv)
      have hNzero : ∀ v ∈ N, ∀ u, (u, v) ∈ deps → u ∈ (A ++ [P]).flatten := by
        intro v hv u huv
        have hl := (hNmem v).mp hv
        have h0 : rem_count deps (A.flatten ++ P) v = 0 := (hcounts' v 0 hl).symm
        rw [hflat_eq]
        exact rem_count_eq_zero_iff.mp h0 u huv
      have hkl : kahn_loop deps (fuel + 1) m P (A ++ [P]) =
          if N.isEmpty then (A ++ [P])
          else kahn_loop deps fuel (_del_items m' N) N ((A ++ [P]) ++ [N]) := rfl
      by_cases hNe : N.isEmpty
      · -- break: no new rank can be emitted
        rw [hkl, if_pos hNe]
        refine ⟨hclosed, hflatnd, hflatsub, fun x hx => hx, ?_⟩
        intro hacyc v hvall
        by_contra hvflat
        have hvK : v ∈ m.map Prod.fst := (hkeys v).mpr ⟨hvall, hvflat⟩
        have hKne : m.map Prod.fst ≠ [] := List.ne_nil_of_mem hvK
        have hpred : ∀ w ∈ m.map Prod.fst, ∃ u ∈ m.map Prod.fst, depRel deps u w := by
          intro w hw
          have hsome : (m.lookup w).isSome := lookup_isSome_iff.mpr hw
          obtain ⟨c, hc⟩ := Option.isSome_iff_exists.mp hsome
          have hlw : m'.lookup w = some (c - dec.count w) := by
            rw [hm', lookup_decrement_indegree, hc]
            rfl
          have hcc : c - dec.count w = rem_count deps (A.flatten ++ P) w :=
            hcounts' w _ hlw
          have hnz : rem_count deps (A.flatten ++ P) w ≠ 0 := by
            intro h0
            have hwN : w ∈ N := (hNmem w).mpr (by rw [hlw, hcc, h0])
            rw [List.isEmpty_iff] at hNe
            rw [hNe] at hwN
            simp at hwN
          obtain ⟨u, huw, hunotin⟩ := rem_count_ne_zero_exists hnz
          have huall : u ∈ all_keys deps := fst_mem_all_keys huw
          have huK : u ∈ m.map Prod.fst := by
            refine (hkeys u).mpr ⟨huall, ?_⟩
            rw [hflat_eq]
            exact hunotin
          exact ⟨u, huK, huw⟩
        obtain ⟨w, hcyc⟩ := exists_cycle_of_forall_has_pred hKne hpred
        exact absurd hcyc (hacyc w)
      · -- emit the next rank and recurse
        rw [hkl, if_neg hNe]
        have hNne : N ≠ [] := by
          intro hnil
          rw [hnil] at hNe
          exact hNe rfl
        have hflat_eq2 : ((A ++ [P]) ++ [N]).flatten = (A ++ [P]).flatten ++ N := by
          simp
        -- fuel bound
        have hm'len : m'.length = m.length := by
          have h := congrArg List.length (keys_decrement_indegree m dec)
          simpa using h
        have hlen2 : (_del_items m' N).length < m'.length := by
          obtain ⟨v, hv⟩ := List.exists_mem_of_ne_nil N hNne
          have hvm : (v, 0) ∈ m' := mem_nodes_at_count_zero.mp (hNdef ▸ hv)
          apply List.length_filter_lt_length_iff_exists.mpr
          refine ⟨(v, 0), hvm, ?_⟩
          simpa [contains_iff] using hv
        have hfuel2 : (_del_items m' N).length < fuel := by omega
        -- keys of the new dict
        have hkeys2 : ∀ k, k ∈ (_del_items m' N).map Prod.fst ↔
            (k ∈ all_keys deps ∧ k ∉ ((A ++ [P]) ++ [N]).flatten) := by
          intro k
          rw [mem_keys_del_items, hkeys', hkeys k, hflat_eq2]
          simp only [List.mem_append]
          constructor
          · rintro ⟨⟨hall, hnot⟩, hnotN⟩
            exact ⟨hall, fun h => h.elim hnot hnotN⟩
          · rintro ⟨hall, hnot⟩
            exact ⟨⟨hall, fun h => hnot (Or.inl h)⟩, fun h => hnot (Or.inr h)⟩
        -- counts of the new dict
        have hcounts2 : ∀ v c, (_del_items m' N).lookup v = some c →
            c = rem_count deps ((A ++ [P]).flatten) v := by
          intro v c h
          rw [lookup_del_items] at h
          by_cases hc : N.contains v = true
          · rw [if_pos hc] at h
            simp at h
          · rw [if_neg hc] at h
            rw [hflat_eq]
            exact hcounts' v c h
        -- the new rank list is still closed
        have hclosed2 : RanksClosed deps ((A ++ [P]) ++ [N]) :=
          ranksClosed_append hclosed hNzero
        -- flattening stays duplicate-free
        have hflatnd2 : (((A ++ [P]) ++ [N]).flatten).Nodup := by
          rw [hflat_eq2]
          rw [List.nodup_append]
          refine ⟨hflatnd, nodup_nodes_at_count_zero hnd', ?_⟩
          intro x hx hxN
          have hxm : x ∈ m.map Prod.fst := hNsubm x hxN
          exact ((hkeys x).mp hxm).2 hx
        have hflatsub2 : ∀ x ∈ ((A ++ [P]) ++ [N]).flatten, x ∈ all_keys deps := by
          intro x hx
          rw [hflat_eq2] at hx
          rcases List.mem_append.mp hx with hx | hx
          · exact hflatsub x hx
          · exact ((hkeys x).mp (hNsubm x hx)).1
        obtain ⟨F1, F2, F3, F4, F5⟩ := ih (_del_items m' N) N (A ++ [P])
          hfuel2 (nodup_keys_del_items hnd' N) hkeys2 hcounts2 hclosed2 hflatnd2 hflatsub2
        refine ⟨F1, F2, F3, ?_, F5⟩
        intro x hx
        apply F4
        rw [hflat_eq2]
        exact List.mem_append.mpr (Or.inl hx)

theorem keys_map_indegree_init (deps : List (String × String)) :
    (map_indegree_init deps).map Prod.fst = all_keys deps := by
  simp only [map_indegree_init, all_keys, List.map_append, List.map_map]
  have h1 : (Prod.fst ∘ fun u : String => (u, (0 : Nat))) = id := rfl
  have h2 : (Prod.fst ∘ fun v : String => (v, (map_backward deps v).length)) = id := rfl
  rw [h1, h2, List.map_id, List.map_id]

theorem lookup_map_indegree_init {deps : List (String × String)} {v : String} {c : Nat}
    (h : (map_indegree_init deps).lookup v = some c) :
    c = (map_backward deps v).length := by
  have hmem := lookup_mem h
  rw [map_indegree_init] at hmem
  rcases List.mem_append.mp hmem with hs | hi
  · obtain ⟨u, hu, heq⟩ := List.mem_map.mp hs
    have h1 : u = v := congrArg Prod.fst heq
    have h2 : (0 : Nat) = c := congrArg Prod.snd heq
    subst h1
    subst h2
    have hnotin : u ∉ set_node_in deps := by
      simp only [set_node_sources, List.mem_filter] at hu
      intro hmem2
      have h3 : ¬ ((set_node_in deps).contains u = true) := by simpa using hu.2
      exact h3 (contains_iff.mpr hmem2)
    rw [map_backward_eq_nil_of_not_in hnotin]
    rfl
  · obtain ⟨w, _, heq⟩ := List.mem_map.mp hi
    have h1 : w = v := congrArg Prod.fst heq
    have h2 : (map_backward deps w).length = c := congrArg Prod.snd heq
    subst h1
    subst h2
    rfl

/-- The rank list produced by `topological_sort` is closed under
predecessors, duplicate-free, contained in the graph's node set and — for
an acyclic dependency graph — covers the whole node set. -/
theorem topological_sort_spec (deps : List (String × String)) :
    RanksClosed deps (topological_sort deps) ∧
    (topological_sort deps).flatten.Nodup ∧
    (∀ x ∈ (topological_sort deps).flatten, x ∈ all_keys deps) ∧
    (AcyclicPairs deps → ∀ v ∈ all_keys deps, v ∈ (topological_sort deps).flatten) := by
  have hnd0 : ((map_indegree_init deps).map Prod.fst).Nodup := by
    rw [keys_map_indegree_init]
    exact nodup_all_keys deps
  set r0 := _nodes_at_count_zero (map_indegree_init deps) with hr0
  set m1 := _del_items (map_indegree_init deps) r0 with hm1
  have hr0nd : r0.Nodup := nodup_nodes_at_count_zero hnd0
  have hr0sub : ∀ v ∈ r0, v ∈ all_keys deps := by
    intro v hv
    rw [← keys_map_indegree_init deps]
    exact nodes_at_count_zero_subset_keys (hr0 ▸ hv)
  have hr0pred : ∀ v ∈ r0, map_backward deps v = [] := by
    intro v hv
    have hvm : (v, 0) ∈ map_indegree_init deps := mem_nodes_at_count_zero.mp (hr0 ▸ hv)
    have hl : (map_indegree_init deps).lookup v = some 0 :=
      lookup_eq_some_of_mem_nodup hnd0 hvm
    have := lookup_map_indegree_init hl
    exact (List.length_eq_zero.mp this.symm)
  have htop : topological_sort deps = kahn_loop deps (m1.length + 1) m1 r0 ([] ++ [r0]) :=
    rfl
  have hflat : (([] : List (List String)) ++ [r0]).flatten = r0 := by simp
  have hspec := kahn_loop_invariant deps (m1.length + 1) m1 r0 []
    (Nat.lt_succ_self _)
    (nodup_keys_del_items hnd0 r0)
    (by
      intro k
      rw [hm1, mem_keys_del_items, keys_map_indegree_init, hflat])
    (by
      intro v c h
      rw [hm1, lookup_del_items] at h
      by_cases hc : r0.contains v = true
      · rw [if_pos hc] at h
        simp at h
      · rw [if_neg hc] at h
        have := lookup_map_indegree_init h
        unfold rem_count
        have hfilter : ((map_backward deps v).filter fun u =>
            decide (u ∉ ([] : List (List String)).flatten)) = map_backward deps v := by
          apply List.filter_eq_self.mpr
          intro u _
          simp
        rw [hfilter]
        exact this)
    (by
      intro u v huv j hj hvj
      have hj0 : j = 0 := by
        simp only [List.nil_append, List.length_singleton] at hj
        omega
      subst hj0
      have hvr0 : v ∈ r0 := by simpa using hvj
      have := hr0pred v hvr0
      have humem : u ∈ map_backward deps v := mem_map_backward.mpr huv
      rw [this] at humem
      simp at humem)
    (by rw [hflat]; exact hr0nd)
    (by
      intro x hx
      rw [hflat] at hx
      exact hr0sub x hx)
  rw [htop]
  obtain ⟨F1, F2, F3, F4, F5⟩ := hspec
  exact ⟨F1, F2, F3, F5⟩

theorem specify_detailed_perm (R : List (List String)) :
    List.Perm (_specify_detailed_execution_order R) R.flatten := by
  unfold _specify_detailed_execution_order
  apply List.Perm.flatten_congr
  rw [List.forall₂_map_left_iff]
  exact List.forall₂_same.mpr fun x _ => py_sorted_perm x

/-- In the flattening of a duplicate-free block list, an element of an
earlier block sits strictly before an element of a later block. -/
theorem indexOf_flatten_lt {B : List (List String)} (hnd : B.flatten.Nodup)
    {u v : String} {i j : Nat} (hi : i < B.length) (hj : j < B.length) (hij : i < j)
    (hu : u ∈ B.get ⟨i, hi⟩) (hv : v ∈ B.get ⟨j, hj⟩) :
    u ∈ B.flatten ∧ v ∈ B.flatten ∧ B.flatten.indexOf u < B.flatten.indexOf v := by
  classical
  have hsplit : B = B.take (i + 1) ++ B.drop (i + 1) := (List.take_append_drop _ _).symm
  have hflat : B.flatten = (B.take (i + 1)).flatten ++ (B.drop (i + 1)).flatten := by
    conv_lhs => rw [hsplit]
    rw [List.flatten_append]
  have hitake : i < (B.take (i + 1)).length := by
    rw [List.length_take]
    omega
  have hublock : u ∈ (B.take (i + 1)).get ⟨i, hitake⟩ := by
    have hget : (B.take (i + 1)).get ⟨i, hitake⟩ = B.get ⟨i, hi⟩ := by
      simp [List.getElem_take]
    rw [hget]
    exact hu
  have huflat : u ∈ (B.take (i + 1)).flatten :=
    List.mem_flatten.mpr ⟨_, List.get_mem _ _ hitake, hublock⟩
  have hjdrop : j - (i + 1) < (B.drop (i + 1)).length := by
    rw [List.length_drop]
    omega
  have hvblock : v ∈ (B.drop (i + 1)).get ⟨j - (i + 1), hjdrop⟩ := by
    have hget : (B.drop (i + 1)).get ⟨j - (i + 1), hjdrop⟩ = B.get ⟨j, hj⟩ := by
      have h1 := List.getElem?_drop B (i + 1) (j - (i + 1))
      have h2 : i + 1 + (j - (i + 1)) = j := by omega
      rw [h2] at h1
      rw [List.getElem?_eq_getElem hjdrop, List.getElem?_eq_getElem hj] at h1
      simpa [List.get_eq_getElem] using h1
    rw [hget]
    exact hv
  have hvflat : v ∈ (B.drop (i + 1)).flatten :=
    List.mem_flatten.mpr ⟨_, List.get_mem _ _ hjdrop, hvblock⟩
  have hndsplit : ((B.take (i + 1)).flatten ++ (B.drop (i + 1)).flatten).Nodup := by
    rw [← hflat]
    exact hnd
  have hvnot : v ∉ (B.take (i + 1)).flatten := by
    intro hvt
    exact (List.nodup_append.mp hndsplit).2.2 hvt hvflat
  refine ⟨?_, ?_, ?_⟩
  · rw [hflat]
    exact List.mem_append.mpr (Or.inl huflat)
  · rw [hflat]
    exact List.mem_append.mpr (Or.inr hvflat)
  · rw [hflat, List.indexOf_append_of_mem huflat, List.indexOf_append_of_not_mem hvnot]
    calc List.indexOf u (B.take (i + 1)).flatten
        < (B.take (i + 1)).flatten.length := List.indexOf_lt_length.mpr huflat
      _ ≤ (B.take (i + 1)).flatten.length + List.indexOf v (B.drop (i + 1)).flatten :=
          Nat.le_add_right _ _

/-- For an acyclic dependency graph, every dependency pair is respected by
the flattened, per-tranche-sorted execution order. -/
theorem detailed_order_precedes {deps : List (String × String)}
    (hacyc : AcyclicPairs deps) {u v : String} (huv : (u, v) ∈ deps) :
    precedes (_specify_detailed_execution_order (topological_sort deps)) u v := by
  classical
  obtain ⟨F1, F2, F3, F5⟩ := topological_sort_spec deps
  set R := topological_sort deps with hR
  have hperm : List.Perm (_specify_detailed_execution_order R) R.flatten :=
    specify_detailed_perm R
  have hBnd : (_specify_detailed_execution_order R).Nodup := hperm.nodup_iff.mpr F2
  have hvflat : v ∈ R.flatten := F5 hacyc v (snd_mem_all_keys huv)
  obtain ⟨l, hl, hvl⟩ := List.mem_flatten.mp hvflat
  obtain ⟨nj, hnj⟩ := List.mem_iff_get.mp hl
  have hvj : v ∈ R.get nj := by rw [hnj]; exact hvl
  obtain ⟨i, hi, hij, hui⟩ := F1 u v huv nj.val nj.isLt hvj
  -- move to the per-tranche-sorted blocks
  set B := R.map py_sorted with hB
  have hBlen : B.length = R.length := List.length_map _ _
  have hBnd2 : B.flatten.Nodup := by
    have hpermB : List.Perm B.flatten R.flatten := by
      apply List.Perm.flatten_congr
      rw [hB, List.forall₂_map_left_iff]
      exact List.forall₂_same.mpr fun x _ => py_sorted_perm x
    exact hpermB.nodup_iff.mpr F2
  have hiB : i < B.length := by omega
  have hjB : nj.val < B.length := by omega
  have huB : u ∈ B.get ⟨i, hiB⟩ := by
    have hget : B.get ⟨i, hiB⟩ = py_sorted (R.get ⟨i, hi⟩) := by
      simp [hB]
    rw [hget]
    exact (py_sorted_perm _).mem_iff.mpr hui
  have hvB : v ∈ B.get ⟨nj.val, hjB⟩ := by
    have hget : B.get ⟨nj.val, hjB⟩ = py_sorted (R.get nj) := by
      simp [hB]
    rw [hget]
    exact (py_sorted_perm _).mem_iff.mpr hvj
  have hres := indexOf_flatten_lt hBnd2 hiB hjB hij huB hvB
  have hflatB : B.flatten = _specify_detailed_execution_order R := rfl
  rw [hflatB] at hres
  exact ⟨hres.1, hres.2.1, hres.2.2⟩

theorem precedes_append_left {L T : List String} {u v : String}
    (h : precedes L u v) : precedes (L ++ T) u v := by
  obtain ⟨hu, hv, hlt⟩ := h
  refine ⟨List.mem_append.mpr (Or.inl hu), List.mem_append.mpr (Or.inl hv), ?_⟩
  rw [List.indexOf_append_of_mem hu, List.indexOf_append_of_mem hv]
  exact hlt

/-- For an acyclic dependency graph, the run order respects every
dependency pair. -/
theorem runorder_respects_deps {iter_cfg_edge : List CfgEdge} {id_process : String}
    (map_cfg_node : List (String × String))
    (hacyc : AcyclicPairs (_local_acyclic_data_flow iter_cfg_edge id_process))
    {u v : String} (huv : (u, v) ∈ _local_acyclic_data_flow iter_cfg_edge id_process) :
    precedes (_get_list_id_node_in_runorder id_process map_cfg_node iter_cfg_edge) u v := by
  have h := detailed_order_precedes hacyc huv
  have hdef : _get_list_id_node_in_runorder id_process map_cfg_node iter_cfg_edge =
      _specify_detailed_execution_order
        (topological_sort (_local_acyclic_data_flow iter_cfg_edge id_process)) ++
      py_sorted (_get_list_id_node_unscheduled map_cfg_node
        (_specify_detailed_execution_order
          (topological_sort (_local_acyclic_data_flow iter_cfg_edge id_process)))
        id_process) := rfl
  rw [hdef]
  exact precedes_append_left h

/-- C2 (corrected).  For every process whose intra-process dependency
graph — feedforward edges together with the *reversed* feedback edges, as
entered into the adjacency maps by `_local_acyclic_data_flow` — is
acyclic, the node execution order computed at startup is a valid linear
extension of the feedforward DAG: for every feedforward intra-process
local edge `u → v`, `u` precedes `v` in the order; within each tranche
nodes are ordered lexicographically by node id, and the nodes of the
process not covered by the sort are appended afterwards, sorted by id. -/
theorem runorder_linear_extension (iter_cfg_edge : List CfgEdge) (id_process : String)
    (map_cfg_node : List (String × String))
    (hacyc : AcyclicPairs (_local_acyclic_data_flow iter_cfg_edge id_process)) :
    (∀ e ∈ iter_cfg_edge, e.dirn = "feedforward" → e.ipc_type = "intra_process" →
      id_process ∈ e.list_id_process →
      precedes (_get_list_id_node_in_runorder id_process map_cfg_node iter_cfg_edge)
        e.id_node_src e.id_node_dst) ∧
    (∀ tranche ∈ topological_sort (_local_acyclic_data_flow iter_cfg_edge id_process),
      List.Sorted str_le_rel (py_sorted tranche)) ∧
    (_get_list_id_node_in_runorder id_process map_cfg_node iter_cfg_edge =
      _specify_detailed_execution_order
        (topological_sort (_local_acyclic_data_flow iter_cfg_edge id_process)) ++
      py_sorted (_get_list_id_node_unscheduled map_cfg_node
        (_specify_detailed_execution_order
          (topological_sort (_local_acyclic_data_flow iter_cfg_edge id_process)))
        id_process)) ∧
    List.Sorted str_le_rel (py_sorted (_get_list_id_node_unscheduled map_cfg_node
      (_specify_detailed_execution_order
        (topological_sort (_local_acyclic_data_flow iter_cfg_edge id_process)))
      id_process)) := by
  refine ⟨?_, fun t _ => py_sorted_sorted t, rfl, py_sorted_sorted _⟩
  intro e he hff hintra hproc
  apply runorder_respects_deps map_cfg_node hacyc
  unfold _local_acyclic_data_flow
  apply List.mem_filterMap.mpr
  refine ⟨e, he, ?_⟩
  have h1 : (e.ipc_type == "intra_process") = true := by rw [hintra]; simp
  have h2 : e.list_id_process.contains id_process = true := contains_iff.mpr hproc
  have h3 : (e.dirn == "feedforward") = true := by rw [hff]; simp
  simp [h1, h2, h3, hproc]

/-- Witness for C2: in a process with nodes `a`, `b` and one feedforward
intra-process edge `a → b`, the dependency graph is acyclic and `a`
precedes `b` in the computed run order. -/
theorem runorder_linear_extension_witness :
    AcyclicPairs (_local_acyclic_data_flow
      [⟨"a", "b", "feedforward", "intra_process", ["p"]⟩] "p") ∧
    precedes (_get_list_id_node_in_runorder "p" [("a", "p"), ("b", "p")]
      [⟨"a", "b", "feedforward", "intra_process", ["p"]⟩]) "a" "b" := by
  have hdeps : _local_acyclic_data_flow
      [⟨"a", "b", "feedforward", "intra_process", ["p"]⟩] "p" = [("a", "b")] := rfl
  have hacyc : AcyclicPairs (_local_acyclic_data_flow
      [⟨"a", "b", "feedforward", "intra_process", ["p"]⟩] "p") := by
    rw [hdeps]
    exact acyclicPairs_single (by decide)
  refine ⟨hacyc, ?_⟩
  exact (runorder_linear_extension
      [⟨"a", "b", "feedforward", "intra_process", ["p"]⟩] "p"
      [("a", "p"), ("b", "p")] hacyc).1
    ⟨"a", "b", "feedforward", "intra_process", ["p"]⟩
    (List.mem_singleton.mpr rfl) rfl rfl (by decide)

/-- C7 (corrected).  Feedback intra-process edges are not excluded from
the topological sort: `_local_acyclic_data_flow` enters every feedback
intra-process local edge `u → v` into the adjacency maps with the
direction reversed, as the dependency pair `(v, u)`, and consequently —
whenever the resulting dependency graph is acyclic — the edge's
destination is scheduled before its source, so feedback edges do create
scheduling dependencies and the computed order can change when they are
present. -/
theorem feedback_edges_create_reversed_dependencies
    (iter_cfg_edge : List CfgEdge) (id_process : String)
    (map_cfg_node : List (String × String))
    (hacyc : AcyclicPairs (_local_acyclic_data_flow iter_cfg_edge id_process)) :
    (∀ e ∈ iter_cfg_edge, e.ipc_type = "intra_process" →
      id_process ∈ e.list_id_process →
      (if e.dirn = "feedforward" then (e.id_node_src, e.id_node_dst)
       else (e.id_node_dst, e.id_node_src)) ∈
        _local_acyclic_data_flow iter_cfg_edge id_process) ∧
    (∀ e ∈ iter_cfg_edge, e.dirn ≠ "feedforward" → e.ipc_type = "intra_process" →
      id_process ∈ e.list_id_process →
      precedes (_get_list_id_node_in_runorder id_process map_cfg_node iter_cfg_edge)
        e.id_node_dst e.id_node_src) := by
  have hmem : ∀ e ∈ iter_cfg_edge, e.ipc_type = "intra_process" →
      id_process ∈ e.list_id_process →
      (if e.dirn = "feedforward" then (e.id_node_src, e.id_node_dst)
       else (e.id_node_dst, e.id_node_src)) ∈
        _local_acyclic_data_flow iter_cfg_edge id_process := by
    intro e he hintra hproc
    unfold _local_acyclic_data_flow
    apply List.mem_filterMap.mpr
    refine ⟨e, he, ?_⟩
    have h1 : (e.ipc_type == "intra_process") = true := by rw [hintra]; simp
    have h2 : e.list_id_process.contains id_process = true := contains_iff.mpr hproc
    by_cases hff : e.dirn = "feedforward"
    · have h3 : (e.dirn == "feedforward") = true := by rw [hff]; simp
      simp [h1, h2, h3, hff, hproc]
    · have h3 : (e.dirn == "feedforward") = false := by simpa using hff
      simp [h1, h2, h3, hff, hproc]
  refine ⟨hmem, ?_⟩
  intro e he hfb hintra hproc
  have h := hmem e he hintra hproc
  rw [if_neg hfb] at h
  exact runorder_respects_deps map_cfg_node hacyc h

/-- Witness for C7: a single feedback intra-process edge `a → b` yields
the dependency pair `(b, a)` and the destination `b` precedes the source
`a` in the computed run order. -/
theorem feedback_edges_create_reversed_dependencies_witness :
    AcyclicPairs (_local_acyclic_data_flow
      [⟨"a", "b", "feedback", "intra_process", ["p"]⟩] "p") ∧
    precedes (_get_list_id_node_in_runorder "p" [("a", "p"), ("b", "p")]
      [⟨"a", "b", "feedback", "intra_process", ["p"]⟩]) "b" "a" := by
  have hdeps : _local_acyclic_data_flow
      [⟨"a", "b", "feedback", "intra_process", ["p"]⟩] "p" = [("b", "a")] := rfl
  have hacyc : AcyclicPairs (_local_acyclic_data_flow
      [⟨"a", "b", "feedback", "intra_process", ["p"]⟩] "p") := by
    rw [hdeps]
    exact acyclicPairs_single (by decide)
  refine ⟨hacyc, ?_⟩
  exact (feedback_edges_create_reversed_dependencies
      [⟨"a", "b", "feedback", "intra_process", ["p"]⟩] "p"
      [("a", "p"), ("b", "p")] hacyc).2
    ⟨"a", "b", "feedback", "intra_process", ["p"]⟩
    (List.mem_singleton.mpr rfl) (by decide) rfl (by decide)

/-! ## I/O buffer allocator (`xact/gen/python.py`)

`_allocator` returns `lambda: copy.copy(getattr(prototype, 'data',
prototype))`.  `copy.copy` is a *shallow* copy, so object identity
matters: the embedding uses an explicit heap in which Python objects live
at addresses and dict entries hold addresses. -/

/-- Heap address of a Python object. -/
abbrev Addr := Nat

/-- The Python objects reachable from an allocator prototype: plain dicts
(the `data` of a `PathDict`), mutable numpy arrays (zero-initialised,
integer cells) and immutable numpy scalars. -/
inductive HObj
  | hdict (entries : List (String × Addr))
  | harray (elems : List Int)
  | hscalar (value : Int)
deriving DecidableEq, Repr

/-- A heap: allocated objects and the next fresh address. -/
structure Heap where
  objs : List (Addr × HObj)
  next : Addr
deriving DecidableEq, Repr

def Heap.empty : Heap := ⟨[], 0⟩

def Heap.get (h : Heap) (a : Addr) : Option HObj :=
  (h.objs.find? fun p => p.1 == a).map Prod.snd

def Heap.alloc (h : Heap) (o : HObj) : Heap × Addr :=
  (⟨h.objs ++ [(h.next, o)], h.next + 1⟩, h.next)

def Heap.set (h : Heap) (a : Addr) (o : HObj) : Heap :=
  ⟨h.objs.map fun p => if p.1 == a then (a, o) else p, h.next⟩

/-- `dict[k] = v` on dict entries holding addresses. -/
def dict_set (es : List (String × Addr)) (k : String) (v : Addr) :
    List (String × Addr) :=
  assocSet es k v

/-- `PathDict.__setitem__` on the heap: walk the path from the root dict,
creating intermediate dicts for missing names, and bind the last name to
the value's address.  (The walk only ever meets dicts when used on a
prototype under construction; a non-dict leaves the heap unchanged.) -/
def heap_set_path : Heap → Addr → List String → Addr → Heap
  | h, _, [], _ => h
  | h, root, [k], v =>
      match h.get root with
      | some (.hdict es) => h.set root (.hdict (dict_set es k v))
      | _ => h
  | h, root, k :: rest, v =>
      match h.get root with
      | some (.hdict es) =>
          match es.lookup k with
          | some a => heap_set_path h a rest v
          | none =>
              let ha := h.alloc (.hdict [])
              let h2 := ha.1.set root (.hdict (es ++ [(k, ha.2)]))
              heap_set_path h2 ha.2 rest v
      | _ => h

/-- The fields of one entry of a denormalised data-type definition
(`std_form` node) that `_make_prototype_instance` reads. -/
structure DataNode where
  category     : String
  np_dtype     : Option String
  py_type      : Option String
  shape        : Option (List Nat)
  memory_order : String
  dst_path     : List String
deriving DecidableEq, Repr

/-- A default-constructed Python value `typeinfo['py']()`. -/
def py_default (h : Heap) : String → Heap × Addr
  | "dict"      => h.alloc (.hdict [])
  | "list"      => h.alloc (.harray [])
  | "set"       => h.alloc (.harray [])
  | "bytearray" => h.alloc (.harray [])
  | _           => h.alloc (.hscalar 0)

/-- `_make_prototype_instance`: build the prototype for one data type.
Returns the heap, the prototype address and whether the prototype is
still the `PathDict` (a node with an empty `dst_path` replaces the whole
prototype with a bare value). -/
def _make_prototype_instance (list_node : List DataNode) (h : Heap) :
    Except String (Heap × Addr × Bool) := do
  let blacklist : List String := ["compound_type", "compound_type_scope_closer"]
  let hroot := h.alloc (.hdict [])
  list_node.foldlM
    (fun st node => do
      let (h, proto, isPathDict) := st
      if blacklist.contains node.category then
        pure st
      else do
        let hv : Heap × Addr ←
          match node.np_dtype with
          | some _ =>
              match node.shape with
              | some shape =>
                  pure (h.alloc (.harray
                    (List.replicate (shape.foldl (fun a b => a * b) 1) 0)))
              | none => pure (h.alloc (.hscalar 0))
          | none =>
              match node.py_type with
              | some py => pure (py_default h py)
              | none => throw "RuntimeError: Neither numpy nor python typeinfo found."
        if node.dst_path.isEmpty then
          pure (hv.1, hv.2, false)
        else
          pure (heap_set_path hv.1 proto node.dst_path hv.2, proto, isPathDict))
    (hroot.1, hroot.2, true)

/-- The body of the closure returned by `_allocator`:
`copy.copy(getattr(prototype, 'data', prototype))`.  For a `PathDict`
prototype, `prototype.data` is the root dict and `copy.copy` allocates a
new dict sharing the entry *addresses*; for a bare dict the same; a bare
numpy value exposes a `memoryview` under `.data`, which `copy.copy`
cannot copy. -/
def _allocator_call (h : Heap) (proto : Addr) (isPathDict : Bool) :
    Except String (Heap × Addr) :=
  if isPathDict then
    match h.get proto with
    | some (.hdict es) => .ok (h.alloc (.hdict es))
    | _ => .error "corrupt prototype"
  else
    match h.get proto with
    | some (.hdict es) => .ok (h.alloc (.hdict es))
    | some _ => .error "TypeError: cannot copy memoryview"
    | none => .error "corrupt prototype"

/-- Follow a path of dict keys from an address. -/
def heap_get_path : Heap → Addr → List String → Option Addr
  | _, a, [] => some a
  | h, a, k :: rest =>
      match h.get a with
      | some (.hdict es) =>
          match es.lookup k with
          | some b => heap_get_path h b rest
          | none => none
      | _ => none

/-- Read cell `i` of the array found at `path` under `a`. -/
def read_cell (h : Heap) (a : Addr) (path : List String) (i : Nat) : Option Int :=
  match heap_get_path h a path with
  | some b =>
      match h.get b with
      | some (.harray elems) => elems.get? i
      | _ => none
  | none => none

/-- Write cell `i` of the array found at `path` under `a` (numpy-style
in-place element assignment `buf[path][i] = v`). -/
def write_cell (h : Heap) (a : Addr) (path : List String) (i : Nat) (v : Int) : Heap :=
  match heap_get_path h a path with
  | some b =>
      match h.get b with
      | some (.harray elems) => h.set b (.harray (elems.set i v))
      | _ => h
  | none => h

/-- The `std_form` node list of a compound data type with a single
two-element `int32` array field `x` (as produced by the data-dictionary
denormaliser: compound root, leaf, scope closer). -/
def demo_list_node : List DataNode :=
  [⟨"compound_type", none, none, none, "C", []⟩,
   ⟨"parameterised_type", some "int32", none, some [2], "C", ["x"]⟩,
   ⟨"compound_type_scope_closer", none, none, none, "C", []⟩]

/-- C8 (code bug).  Evaluation at the failing input: `_allocator` builds
one prototype and shallow-copies it on every call, so the two buffers it
returns share the leaf array: both read back `0` when fresh, but writing
`5` into cell 0 of the first buffer's field `x` makes the second buffer's
field `x` read `5` as well — the buffers are not independent, contrary to
the claim. -/
theorem allocator_buffers_share_memory :
    _make_prototype_instance demo_list_node Heap.empty =
      .ok (⟨[(0, .hdict [("x", 1)]), (1, .harray [0, 0])], 2⟩, 0, true) ∧
    _allocator_call ⟨[(0, .hdict [("x", 1)]), (1, .harray [0, 0])], 2⟩ 0 true =
      .ok (⟨[(0, .hdict [("x", 1)]), (1, .harray [0, 0]), (2, .hdict [("x", 1)])], 3⟩, 2) ∧
    _allocator_call ⟨[(0, .hdict [("x", 1)]), (1, .harray [0, 0]),
        (2, .hdict [("x", 1)])], 3⟩ 0 true =
      .ok (⟨[(0, .hdict [("x", 1)]), (1, .harray [0, 0]), (2, .hdict [("x", 1)]),
        (3, .hdict [("x", 1)])], 4⟩, 3) ∧
    read_cell ⟨[(0, .hdict [("x", 1)]), (1, .harray [0, 0]), (2, .hdict [("x", 1)]),
        (3, .hdict [("x", 1)])], 4⟩ 2 ["x"] 0 = some 0 ∧
    read_cell ⟨[(0, .hdict [("x", 1)]), (1, .harray [0, 0]), (2, .hdict [("x", 1)]),
        (3, .hdict [("x", 1)])], 4⟩ 3 ["x"] 0 = some 0 ∧
    read_cell (write_cell ⟨[(0, .hdict [("x", 1)]), (1, .harray [0, 0]),
        (2, .hdict [("x", 1)]), (3, .hdict [("x", 1)])], 4⟩ 2 ["x"] 0 5)
      3 ["x"] 0 = some 5 :=
  ⟨rfl, rfl, rfl, rfl, rfl, rfl⟩

/-! ## Configuration pipeline (`xact/cfg/__init__.py` and helpers)

Configuration data is arbitrary nested Python data; it is embedded as the
`Val` type below.  Python dictionaries keep insertion order, embedded as
association lists.  Every Python exception the pipeline can raise is an
explicit `PyErr` value. -/

/-- Python exception classes observed by the configuration pipeline. -/
inductive PyErr
  | cfgError (msg : String)
  | runtimeError (msg : String)
  | keyError (key : String)
  | typeError (msg : String)
  | attributeError (msg : String)
  | indexError (msg : String)
deriving DecidableEq, Repr

/-- Python values occurring in configuration mappings.  `vfloat` carries
the literal text of a float (no float arithmetic occurs anywhere in the
pipeline); `vtype` is a Python type object such as `str`. -/
inductive Val
  | vnull
  | vbool (b : Bool)
  | vint (n : Int)
  | vstr (s : String)
  | vfloat (lit : String)
  | vtype (name : String)
  | vlist (xs : List Val)
  | vdict (entries : List (String × Val))

/-- `d[k]` read: `KeyError` on a missing key, `TypeError` when indexing a
non-mapping with a string key. -/
def dict_get (v : Val) (k : String) : Except PyErr Val :=
  match v with
  | .vdict es =>
      match es.lookup k with
      | some w => .ok w
      | none => .error (.keyError k)
  | _ => .error (.typeError "string indices require a mapping")

/-- `d[k] = w`: overwrite in place or append; `TypeError` on non-dicts. -/
def dict_set_val (v : Val) (k : String) (w : Val) : Except PyErr Val :=
  match v with
  | .vdict es => .ok (.vdict (assocSet es k w))
  | _ => .error (.typeError "item assignment on a non-dict value")

/-- `d[k₁][k₂]…[kₙ] = w`: evaluate the prefix with `dict_get`, then
assign; mirrors the chained subscripts used by `prepare`. -/
def dict_set_path (v : Val) : List String → Val → Except PyErr Val
  | [], w => .ok w
  | [k], w => dict_set_val v k w
  | k :: rest, w => do
      let child ← dict_get v k
      let child2 ← dict_set_path child rest w
      dict_set_val v k child2

/-- Chained reads `d[k₁][k₂]…[kₙ]`. -/
def dict_get_path (v : Val) : List String → Except PyErr Val
  | [] => .ok v
  | k :: rest => do
      let child ← dict_get v k
      dict_get_path child rest

/-- `.keys()` (or iteration over a mapping). -/
def dict_keys (v : Val) : Except PyErr (List String) :=
  match v with
  | .vdict es => .ok (es.map Prod.fst)
  | _ => .error (.attributeError "keys")

/-- `.values()`. -/
def dict_values (v : Val) : Except PyErr (List Val) :=
  match v with
  | .vdict es => .ok (es.map Prod.snd)
  | _ => .error (.attributeError "values")

/-- `pat` occurs at the head of the character list. -/
def chars_lead : List Char → List Char → Bool
  | [], _ => true
  | _ :: _, [] => false
  | p :: ps, c :: cs => p == c && chars_lead ps cs

/-- `pat` occurs somewhere in the character list. -/
def chars_within (pat : List Char) : List Char → Bool
  | [] => chars_lead pat []
  | c :: cs => chars_lead pat (c :: cs) || chars_within pat cs

/-- Python's `k in v`: key test for dicts, membership for lists,
substring test for strings, `TypeError` otherwise. -/
def py_contains (v : Val) (k : String) : Except PyErr Bool :=
  match v with
  | .vdict es => .ok ((es.lookup k).isSome)
  | .vlist xs => .ok (xs.any fun x =>
      match x with
      | .vstr s => s == k
      | _ => false)
  | .vstr s => .ok (chars_within k.data s.data)
  | _ => .error (.typeError "argument is not iterable")

/-- Python's `for x in v`: list elements, dict keys, string characters,
`TypeError` otherwise. -/
def py_iter (v : Val) : Except PyErr (List Val) :=
  match v with
  | .vlist xs => .ok xs
  | .vdict es => .ok (es.map fun p => .vstr p.1)
  | .vstr s => .ok (s.data.map fun c => .vstr (String.mk [c]))
  | _ => .error (.typeError "object is not iterable")

/-- Render a value for an error-message placeholder. -/
def val_str : Val → String
  | .vstr s => s
  | _ => "<value>"

/-- Python's recursion limit (`sys.getrecursionlimit()` default). -/
def recursion_limit : Nat := 1000

/-- `_merge_dicts` of `xact/cfg/__init__.py`, with Python's recursion
limit made explicit as fuel.  Recursion happens only when both values
under a key are dicts; otherwise the second value wins.  `AttributeError`
when either argument has no `.keys()`.  The iteration order of
`set(first.keys()).union(second.keys())` is unspecified in Python; the
embedding orders keys of `first` first, then the new keys of `second`. -/
def merge_dicts_fuel : Nat → Val → Val → Except PyErr Val
  | 0, _, _ => .error (.runtimeError "maximum recursion depth exceeded")
  | fuel + 1, first, second =>
      match first, second with
      | .vdict f, .vdict s => do
          let merged ← f.mapM fun kv =>
            match s.lookup kv.1 with
            | some w =>
                match kv.2, w with
                | .vdict a, .vdict b => do
                    let m ← merge_dicts_fuel fuel (.vdict a) (.vdict b)
                    pure (kv.1, m)
                | _, _ => pure (kv.1, w)
            | none => pure kv
          pure (.vdict (merged ++ s.filter fun kv => (f.lookup kv.1).isNone))
      | _, _ => .error (.attributeError "keys")

/-- `merge_dicts`. -/
def merge_dicts (first second : Val) : Except PyErr Val :=
  merge_dicts_fuel recursion_limit first second

/-- The path walk of `xact.cfg.util.apply`: for every intermediate name,
create a missing entry as an empty dict, then descend; assign at the last
name.  Walking or assigning through a non-dict raises `TypeError`. -/
def cfg_util_apply_walk : Val → List String → Val → Except PyErr Val
  | subtree, [], _ => .ok subtree
  | subtree, [key], value => dict_set_val subtree key value
  | subtree, key :: rest, value =>
      match subtree with
      | .vdict es =>
          match es.lookup key with
          | some child => do
              let child2 ← cfg_util_apply_walk child rest value
              pure (.vdict (assocSet es key child2))
          | none => do
              let child2 ← cfg_util_apply_walk (.vdict []) rest value
              pure (.vdict (assocSet es key child2))
      | _ => .error (.typeError "argument is not a dict")

/-- `xact.cfg.util.apply`. -/
def cfg_util_apply (data : Val) (address : String) (value : Val)
    (delim_cfg_addr : String) : Except PyErr Val :=
  cfg_util_apply_walk data (address.splitOn delim_cfg_addr) value

/-- `tup_overrides[::2]` zipped with `tup_overrides[1::2]`. -/
def override_pairs : List String → List (String × String)
  | a :: b :: rest => (a, b) :: override_pairs rest
  | _ => []

/-- `xact.cfg.override.apply`: apply each address/value pair in order; a
`KeyError` from the walk is converted to `RuntimeError` (the walk never
raises `KeyError`, so the conversion is dead code, embedded faithfully
nonetheless). -/
def override_apply (cfg : Val) (tup_overrides : Option (List String))
    (delim_cfg_addr : String) : Except PyErr Val :=
  match tup_overrides with
  | none => .ok cfg
  | some tup =>
      (override_pairs tup).foldlM
        (fun cfg av =>
          match cfg_util_apply cfg av.1 (.vstr av.2) delim_cfg_addr with
          | .ok c => .ok c
          | .error (.keyError _) =>
              .error (.runtimeError ("Could not find \"" ++ av.1 ++ "\" in cfg"))
          | .error e => .error e)
        cfg

-- Structural equality of Python values (`==` on config data).
mutual
def val_beq : Val → Val → Bool
  | .vnull, .vnull => true
  | .vbool a, .vbool b => a == b
  | .vint a, .vint b => a == b
  | .vstr a, .vstr b => a == b
  | .vfloat a, .vfloat b => a == b
  | .vtype a, .vtype b => a == b
  | .vlist xs, .vlist ys => val_list_beq xs ys
  | .vdict xs, .vdict ys => val_dict_beq xs ys
  | _, _ => false

def val_list_beq : List Val → List Val → Bool
  | [], [] => true
  | x :: xs, y :: ys => val_beq x y && val_list_beq xs ys
  | _, _ => false

def val_dict_beq : List (String × Val) → List (String × Val) → Bool
  | [], [] => true
  | (k, v) :: xs, (l, w) :: ys => k == l && val_beq v w && val_dict_beq xs ys
  | _, _ => false
end

/-- `.split('.')` on a config value. -/
def val_split_dot (v : Val) : Except PyErr (List String) :=
  match v with
  | .vstr s => .ok (s.splitOn ".")
  | _ => .error (.attributeError "split")

/-- `xs[i]` on a list of path parts. -/
def list_at (xs : List String) (i : Nat) : Except PyErr String :=
  match xs.get? i with
  | some x => .ok x
  | none => .error (.indexError "list index out of range")

/-! ### `xact/cfg/validate.py` -/

/-- `_check`: raise `CfgError` when the item is not among the valid ids. -/
def _check (item : Val) (set_valid : List String) (msg : String) : Except PyErr Unit :=
  match item with
  | .vstr s =>
      if s ∈ set_valid then .ok ()
      else .error (.cfgError (msg.replace "{id}" s))
  | other => .error (.cfgError (msg.replace "{id}" (val_str other)))

def _check_process_consistency (cfg : Val) : Except PyErr Unit := do
  let host ← dict_get cfg "host"
  let set_id_host ← dict_keys host
  let process ← dict_get cfg "process"
  let vals ← dict_values process
  vals.forM fun cfg_process => do
    let h ← dict_get cfg_process "host"
    _check h set_id_host "Unkown id_host in cfg: {id}"

def _check_node_consistency (cfg : Val) : Except PyErr Unit := do
  let process ← dict_get cfg "process"
  let set_id_process ← dict_keys process
  let data ← dict_get cfg "data"
  let set_id_data ← dict_keys data
  let hasReq ← py_contains cfg "req_host_cfg"
  let set_id_req_host_cfg ←
    if hasReq then do
      let req ← dict_get cfg "req_host_cfg"
      dict_keys req
    else
      pure []
  let node ← dict_get cfg "node"
  let vals ← dict_values node
  vals.forM fun cfg_node => do
    let p ← dict_get cfg_node "process"
    _check p set_id_process "Unkown id_process in cfg: {id}"
    let hasState ← py_contains cfg_node "state_type"
    if hasState then do
      let st ← dict_get cfg_node "state_type"
      _check st set_id_data "Unkown id_data in cfg: {id}"
    let hasReq2 ← py_contains cfg_node "req_host_cfg"
    if hasReq2 then do
      let rq ← dict_get cfg_node "req_host_cfg"
      _check rq set_id_req_host_cfg "Unkown id_req_host_cfg in cfg: {id}"

def _check_edge_consistency (cfg : Val) : Except PyErr Unit := do
  let node ← dict_get cfg "node"
  let set_id_node ← dict_keys node
  let data ← dict_get cfg "data"
  let set_id_data ← dict_keys data
  let edge ← dict_get cfg "edge"
  let edges ← py_iter edge
  edges.forM fun cfg_edge => do
    let owner ← dict_get cfg_edge "owner"
    _check owner set_id_node "Unkown id_node in cfg: {id}"
    let d ← dict_get cfg_edge "data"
    _check d set_id_data "Unkown id_data in cfg: {id}"
    let src ← dict_get cfg_edge "src"
    let srcParts ← val_split_dot src
    let src0 ← list_at srcParts 0
    _check (.vstr src0) set_id_node "Unkown id_node in cfg: {id}"
    let dst ← dict_get cfg_edge "dst"
    let dstParts ← val_split_dot dst
    let dst0 ← list_at dstParts 0
    _check (.vstr dst0) set_id_node "Unkown id_node in cfg: {id}"
    let src1 ← list_at srcParts 1
    if src1 ≠ "outputs" then
      throw (.cfgError "Edge source needs to be an output.")
    let dst1 ← list_at dstParts 1
    if dst1 ≠ "inputs" then
      throw (.cfgError "Edge destination needs to be an input.")

def _check_edge_end_uniqueness (cfg : Val) : Except PyErr Unit := do
  let edge ← dict_get cfg "edge"
  let edges ← py_iter edge
  let _final ← edges.foldlM
    (fun (set_edge_path : List Val) cfg_edge => do
      let src ← dict_get cfg_edge "src"
      if set_edge_path.any (fun x => val_beq x src) then
        throw (.cfgError ("Repeated edge source: " ++ val_str src))
      let set1 := set_edge_path ++ [src]
      let dst ← dict_get cfg_edge "dst"
      if set1.any (fun x => val_beq x dst) then
        throw (.cfgError ("Repeated edge destination: " ++ val_str dst))
      pure (set1 ++ [dst]))
    ([] : List Val)
  pure ()

def _check_required_host_configuration (cfg : Val) : Except PyErr Unit := do
  let hasRole ← py_contains cfg "role"
  let set_id_role ←
    if hasRole then do
      let role ← dict_get cfg "role"
      dict_keys role
    else
      pure []
  let hasReq ← py_contains cfg "req_host_cfg"
  if hasReq then do
    let req ← dict_get cfg "req_host_cfg"
    let vals ← dict_values req
    vals.forM fun cfg_req_host_cfg => do
      let hasR ← py_contains cfg_req_host_cfg "role"
      if hasR then do
        let roles ← dict_get cfg_req_host_cfg "role"
        let iter ← py_iter roles
        iter.forM fun id_role =>
          match id_role with
          | .vstr s =>
              if s ∈ set_id_role then pure ()
              else throw (.cfgError ("Unknown id_role in cfg: " ++ s))
          | other => throw (.cfgError ("Unknown id_role in cfg: " ++ val_str other))
      else
        pure ()
  else
    pure ()

def _check_consistency (cfg : Val) : Except PyErr Unit := do
  _check_process_consistency cfg
  _check_node_consistency cfg
  _check_edge_consistency cfg
  _check_edge_end_uniqueness cfg
  _check_required_host_configuration cfg

/-- `_validate_with_schema`: the `jsonschema.validate` call is external
and embedded as `schema_check` returning the validation-error message, if
any; a `ValidationError` is re-raised as `CfgError`, then referential
consistency is checked and the config returned unchanged. -/
def _validate_with_schema (schema_check : Val → Option String) (cfg : Val) :
    Except PyErr Val := do
  match schema_check cfg with
  | some msg => throw (.cfgError ("\n\n" ++ msg ++ "\n\n"))
  | none => pure ()
  _check_consistency cfg
  pure cfg

/-- `xact.cfg.validate.normalized`. -/
def validate_normalized (schema_check : Val → Option String) (cfg : Val) :
    Except PyErr Val :=
  _validate_with_schema schema_check cfg

/-! ### `prepare` (`xact/cfg/__init__.py`) -/

/-- External dependencies of `prepare`: the on-disk loader
(`xact.cfg.load.from_path`, out of scope), the config-string deserializer
(`xact.util.serialization.deserialize`), the sha512-based
`xact.util.serialization.hexdigest` and the `jsonschema.validate`
structural check. -/
structure Externals where
  from_path    : String → Except PyErr Val
  deserialize  : String → Except PyErr Val
  hexdigest    : Val → String
  schema_check : Val → Option String

/-- The first phase of `prepare`: presence check, merge of the config
sources, application of the overrides.  Its result is the merged mapping
the config hash is computed over. -/
def prepare_merge_phase (ext : Externals) (path_cfg string_cfg : Option String)
    (delim_cfg_addr : String) (tup_overrides : Option (List String)) :
    Except PyErr Val := do
  let has_cfg_files := path_cfg.isSome
  let has_cfg_string := string_cfg.isSome
  let has_cfg := has_cfg_files || has_cfg_string
  if ¬ has_cfg then
    throw (.cfgError "No configuration data has been provided.")
  let cfg0 : Val := .vdict []
  let cfg1 ←
    if has_cfg_files then do
      let loaded ← ext.from_path (path_cfg.getD "")
      merge_dicts cfg0 loaded
    else
      pure cfg0
  let cfg2 ←
    if has_cfg_string then do
      let loaded ← ext.deserialize (string_cfg.getD "")
      merge_dicts cfg1 loaded
    else
      pure cfg1
  override_apply cfg2 tup_overrides delim_cfg_addr

/-- The second phase of `prepare`: compute `id_cfg` as the first 8 hex
characters of the stable hash over the merged mapping, install the
runtime block, validate.  (`xact.cfg.validate.normalized` returns its
argument or raises, so the `if cfg is None` guard in the source cannot
fire.) -/
def prepare_finalize (ext : Externals) (cfg_merged : Val)
    (do_make_ready is_distributed : Bool) : Except PyErr Val := do
  let id_cfg := (ext.hexdigest cfg_merged).take 8
  let cfg ← dict_set_path cfg_merged ["runtime"] (.vdict [])
  let cfg ← dict_set_path cfg ["runtime", "opt"] (.vdict [])
  let cfg ← dict_set_path cfg ["runtime", "id"] (.vdict [])
  let cfg ← dict_set_path cfg ["runtime", "state"] (.vstr "start")
  let cfg ← dict_set_path cfg ["runtime", "opt", "do_make_ready"] (.vbool do_make_ready)
  let cfg ← dict_set_path cfg ["runtime", "opt", "is_distributed"] (.vbool is_distributed)
  let system ← dict_get cfg "system"
  let id_system ← dict_get system "id_system"
  let cfg ← dict_set_path cfg ["runtime", "id", "id_system"] id_system
  let cfg ← dict_set_path cfg ["runtime", "id", "id_cfg"] (.vstr id_cfg)
  let cfg ← dict_set_path cfg ["runtime", "id", "id_host"] (.vstr "tbd")
  let cfg ← dict_set_path cfg ["runtime", "id", "id_process"] (.vstr "tbd")
  let cfg ← dict_set_path cfg ["runtime", "id", "id_node"] (.vstr "tbd")
  let cfg ← dict_set_path cfg ["runtime", "id", "ts_run"] (.vstr "00000000000000")
  let cfg ← dict_set_path cfg ["runtime", "id", "id_run"] (.vstr "00000000")
  validate_normalized ext.schema_check cfg

/-- The body of `prepare`, before the decorator. -/
def prepare_body (ext : Externals) (path_cfg string_cfg : Option String)
    (do_make_ready is_distributed : Bool) (delim_cfg_addr : String)
    (tup_overrides : Option (List String)) : Except PyErr Val := do
  let cfg_merged ← prepare_merge_phase ext path_cfg string_cfg delim_cfg_addr
    tup_overrides
  prepare_finalize ext cfg_merged do_make_ready is_distributed

/-- `@loguru.logger.catch(exclude=CfgError)`: a raised `CfgError`
propagates; any other exception is logged and suppressed, and the
decorated function returns `None`. -/
def logger_catch_exclude_CfgError (r : Except PyErr Val) :
    Except PyErr (Option Val) :=
  match r with
  | .ok v => .ok (some v)
  | .error (.cfgError msg) => .error (.cfgError msg)
  | .error _ => .ok none

/-- `xact.cfg.prepare`. -/
def prepare (ext : Externals) (path_cfg string_cfg : Option String)
    (do_make_ready is_distributed : Bool) (delim_cfg_addr : String)
    (tup_overrides : Option (List String)) : Except PyErr (Option Val) :=
  logger_catch_exclude_CfgError
    (prepare_body ext path_cfg string_cfg do_make_ready is_distributed
      delim_cfg_addr tup_overrides)

/-! ### Reading back values stored by `prepare` -/

theorem ebind_ok {α β : Type} (a : α) (f : α → Except PyErr β) :
    ((Except.ok a : Except PyErr α) >>= f) = f a := rfl

theorem lookup_cons_self {α : Type} (a : String) (b : α) (t : List (String × α)) :
    List.lookup a ((a, b) :: t) = some b := by
  simp [List.lookup]

theorem lookup_cons_ne {α : Type} {k a : String} (b : α) (t : List (String × α))
    (h : k ≠ a) : List.lookup k ((a, b) :: t) = List.lookup k t := by
  have h2 : (k == a) = false := beq_eq_false_iff_ne.mpr h
  simp [List.lookup, h2]

theorem overwrite_head_eq {α : Type} (k : String) (v : α) (a : String) (b : α)
    (h : a = k) :
    (if ((a, b).1 == k) = true then (k, v) else (a, b)) = (k, v) := by
  subst h
  simp

theorem overwrite_head_ne {α : Type} (k : String) (v : α) (a : String) (b : α)
    (h : ¬ a = k) :
    (if ((a, b).1 == k) = true then (k, v) else (a, b)) = (a, b) := by
  have h1 : ((a, b).1 == k) = false := beq_eq_false_iff_ne.mpr h
  rw [h1]
  simp

theorem lookup_map_overwrite {α : Type} (k : String) (v : α) :
    ∀ m : List (String × α),
      (m.map fun p => if p.1 == k then (k, v) else p).lookup k =
        (m.lookup k).map fun _ => v := by
  intro m
  induction m with
  | nil => rfl
  | cons p t ih =>
      obtain ⟨a, b⟩ := p
      rw [List.map_cons]
      by_cases hak : a = k
      · rw [overwrite_head_eq k v a b hak, lookup_cons_self]
        rw [show List.lookup k ((a, b) :: t) = some b from by
          rw [hak]; exact lookup_cons_self k b t]
        rfl
      · rw [overwrite_head_ne k v a b hak,
          lookup_cons_ne b ((t.map fun p => if p.1 == k then (k, v) else p)) (Ne.symm hak),
          lookup_cons_ne b t (Ne.symm hak)]
        exact ih

theorem lookup_append_absent {α : Type} (k : String) (v : α) :
    ∀ m : List (String × α), m.lookup k = none →
      (m ++ [(k, v)]).lookup k = some v := by
  intro m
  induction m with
  | nil => intro _; simp [List.lookup]
  | cons p t ih =>
      intro h
      obtain ⟨a, b⟩ := p
      by_cases hka : k = a
      · subst hka
        simp [List.lookup] at h
      · have h2 : (k == a) = false := beq_eq_false_iff_ne.mpr hka
        simp only [List.cons_append, List.lookup, h2] at h ⊢
        exact ih h

theorem lookup_append_other {α : Type} (k kr : String) (v : α) (hne : kr ≠ k) :
    ∀ m : List (String × α), (m ++ [(k, v)]).lookup kr = m.lookup kr := by
  intro m
  induction m with
  | nil =>
      have h2 : (kr == k) = false := beq_eq_false_iff_ne.mpr hne
      simp [List.lookup, h2]
  | cons p t ih =>
      obtain ⟨a, b⟩ := p
      by_cases hka : kr = a
      · subst hka
        simp [List.lookup]
      · have h2 : (kr == a) = false := beq_eq_false_iff_ne.mpr hka
        simp only [List.cons_append, List.lookup, h2]
        exact ih

theorem lookup_map_overwrite_other {α : Type} (k kr : String) (v : α)
    (hne : kr ≠ k) :
    ∀ m : List (String × α),
      (m.map fun p => if p.1 == k then (k, v) else p).lookup kr = m.lookup kr := by
  intro m
  induction m with
  | nil => rfl
  | cons p t ih =>
      obtain ⟨a, b⟩ := p
      rw [List.map_cons]
      by_cases hak : a = k
      · rw [overwrite_head_eq k v a b hak,
          lookup_cons_ne v ((t.map fun p => if p.1 == k then (k, v) else p)) hne,
          lookup_cons_ne b t (by rw [hak]; exact hne)]
        exact ih
      · rw [overwrite_head_ne k v a b hak]
        by_cases hka : kr = a
        · rw [show List.lookup kr
              ((a, b) :: (t.map fun p => if p.1 == k then (k, v) else p)) = some b from by
            rw [hka]; exact lookup_cons_self a b _]
          rw [show List.lookup kr ((a, b) :: t) = some b from by
            rw [hka]; exact lookup_cons_self a b t]
        · rw [lookup_cons_ne b ((t.map fun p => if p.1 == k then (k, v) else p)) hka,
            lookup_cons_ne b t hka]
          exact ih

theorem lookup_assocSet_same {α : Type} (m : List (String × α)) (k : String)
    (v : α) : (assocSet m k v).lookup k = some v := by
  unfold assocSet
  by_cases h : (m.lookup k).isSome
  · rw [if_pos h, lookup_map_overwrite]
    obtain ⟨w, hw⟩ := Option.isSome_iff_exists.mp h
    rw [hw]
    rfl
  · rw [if_neg h]
    exact lookup_append_absent k v m (Option.not_isSome_iff_eq_none.mp h)

theorem lookup_assocSet_other {α : Type} (m : List (String × α)) (k kr : String)
    (v : α) (hne : kr ≠ k) : (assocSet m k v).lookup kr = m.lookup kr := by
  unfold assocSet
  by_cases h : (m.lookup k).isSome
  · rw [if_pos h]
    exact lookup_map_overwrite_other k kr v hne m
  · rw [if_neg h]
    exact lookup_append_other k kr v hne m

theorem dict_get_set_same {v v2 w : Val} {k : String}
    (h : dict_set_val v k w = .ok v2) : dict_get v2 k = .ok w := by
  cases v
  case vdict es =>
    have hv2 : Val.vdict (assocSet es k w) = v2 := Except.ok.inj h
    subst hv2
    show (match (assocSet es k w).lookup k with
          | some u => Except.ok u
          | none => Except.error (PyErr.keyError k)) = Except.ok w
    rw [lookup_assocSet_same]
  all_goals exact Except.noConfusion h

theorem dict_get_set_other {v v2 w : Val} {k kr : String} (hne : kr ≠ k)
    (h : dict_set_val v k w = .ok v2) : dict_get v2 kr = dict_get v kr := by
  cases v
  case vdict es =>
    have hv2 : Val.vdict (assocSet es k w) = v2 := Except.ok.inj h
    subst hv2
    show (match (assocSet es k w).lookup kr with
          | some u => Except.ok u
          | none => Except.error (PyErr.keyError kr)) =
        (match es.lookup kr with
          | some u => Except.ok u
          | none => Except.error (PyErr.keyError kr))
    rw [lookup_assocSet_other es k kr w hne]
  all_goals exact Except.noConfusion h

/-- Reading back a chained assignment along the same key path returns the
assigned value. -/
theorem dict_get_path_set_path_same (p : List String) :
    ∀ (v v2 w : Val), dict_set_path v p w = .ok v2 →
      dict_get_path v2 p = .ok w := by
  induction p with
  | nil =>
      intro v v2 w h
      have h1 : w = v2 := Except.ok.inj h
      subst h1
      rfl
  | cons k rest ih =>
      intro v v2 w h
      cases rest with
      | nil =>
          have h1 : dict_set_val v k w = .ok v2 := h
          have hg : dict_get v2 k = .ok w := dict_get_set_same h1
          show (dict_get v2 k >>= fun child => dict_get_path child []) = .ok w
          rw [hg]
          rfl
      | cons k2 rest2 =>
          have h1 : (dict_get v k >>= fun child =>
              dict_set_path child (k2 :: rest2) w >>= fun child2 =>
              dict_set_val v k child2) = .ok v2 := h
          cases hc : dict_get v k with
          | error e =>
              rw [hc] at h1
              exact Except.noConfusion h1
          | ok child =>
              rw [hc] at h1
              have h2 : (dict_set_path child (k2 :: rest2) w >>= fun child2 =>
                  dict_set_val v k child2) = .ok v2 := h1
              cases hs : dict_set_path child (k2 :: rest2) w with
              | error e =>
                  rw [hs] at h2
                  exact Except.noConfusion h2
              | ok child2 =>
                  rw [hs] at h2
                  have h3 : dict_set_val v k child2 = .ok v2 := h2
                  have hg : dict_get v2 k = .ok child2 := dict_get_set_same h3
                  have hrest : dict_get_path child2 (k2 :: rest2) = .ok w :=
                    ih child child2 w hs
                  show (dict_get v2 k >>= fun c =>
                      dict_get_path c (k2 :: rest2)) = .ok w
                  rw [hg]
                  exact hrest

/-- A chained assignment differing only in the final key leaves readable
values at sibling paths unchanged. -/
theorem dict_get_path_set_path_other (p : List String) :
    ∀ (v v2 w u : Val) (k kr : String), kr ≠ k →
      dict_set_path v (p ++ [k]) w = .ok v2 →
      dict_get_path v (p ++ [kr]) = .ok u →
      dict_get_path v2 (p ++ [kr]) = .ok u := by
  induction p with
  | nil =>
      intro v v2 w u k kr hne hset hget
      have h1 : dict_set_val v k w = .ok v2 := hset
      have hgo : dict_get v2 kr = dict_get v kr := dict_get_set_other hne h1
      show (dict_get v2 kr >>= fun c => dict_get_path c []) = .ok u
      rw [hgo]
      exact hget
  | cons q t ih =>
      intro v v2 w u k kr hne hset hget
      obtain ⟨r, l2, hl⟩ : ∃ r l2, t ++ [k] = r :: l2 := by
        cases t with
        | nil => exact ⟨k, [], rfl⟩
        | cons a t2 => exact ⟨a, t2 ++ [k], rfl⟩
      have hset1 : dict_set_path v (q :: (t ++ [k])) w = .ok v2 := hset
      rw [hl] at hset1
      have h1 : (dict_get v q >>= fun child =>
          dict_set_path child (r :: l2) w >>= fun child2 =>
          dict_set_val v q child2) = .ok v2 := hset1
      cases hc : dict_get v q with
      | error e =>
          rw [hc] at h1
          exact Except.noConfusion h1
      | ok child =>
          rw [hc] at h1
          have h2 : (dict_set_path child (r :: l2) w >>= fun child2 =>
              dict_set_val v q child2) = .ok v2 := h1
          cases hs : dict_set_path child (r :: l2) w with
          | error e =>
              rw [hs] at h2
              exact Except.noConfusion h2
          | ok child2 =>
              rw [hs] at h2
              have h3 : dict_set_val v q child2 = .ok v2 := h2
              have hget1 : (dict_get v q >>= fun c =>
                  dict_get_path c (t ++ [kr])) = .ok u := hget
              rw [hc] at hget1
              have hget2 : dict_get_path child (t ++ [kr]) = .ok u := hget1
              rw [← hl] at hs
              have hchild : dict_get_path child2 (t ++ [kr]) = .ok u :=
                ih child child2 w u k kr hne hs hget2
              have hg : dict_get v2 q = .ok child2 := dict_get_set_same h3
              show (dict_get v2 q >>= fun c =>
                  dict_get_path c (t ++ [kr])) = .ok u
              rw [hg]
              exact hchild

/-- `xact.cfg.validate.normalized` returns its argument unchanged whenever
it succeeds. -/
theorem validate_ok_eq {sc : Val → Option String} {cfg c : Val}
    (h : validate_normalized sc cfg = .ok c) : c = cfg := by
  unfold validate_normalized _validate_with_schema at h
  cases hsc : sc cfg with
  | some msg =>
      rw [hsc] at h
      exact Except.noConfusion h
  | none =>
      rw [hsc] at h
      cases hcc : _check_consistency cfg with
      | error e =>
          rw [hcc] at h
          exact Except.noConfusion h
      | ok u =>
          rw [hcc] at h
          have h2 : (Except.ok cfg : Except PyErr Val) = .ok c := h
          exact (Except.ok.inj h2).symm

/-- Whenever the finalization phase succeeds, the returned config stores
the first 8 hex characters of the hash of the merged mapping under
`runtime.id.id_cfg`. -/
theorem prepare_finalize_reads_id_cfg (ext : Externals) (merged c : Val)
    (dmr isd : Bool)
    (h : prepare_finalize ext merged dmr isd = .ok c) :
    dict_get_path c ["runtime", "id", "id_cfg"] =
      .ok (.vstr ((ext.hexdigest merged).take 8)) := by
  unfold prepare_finalize at h
  have h1 : ∃ c1, dict_set_path merged ["runtime"] (.vdict []) = .ok c1 := by
    cases hx : dict_set_path merged ["runtime"] (.vdict []) with
    | error e => rw [hx] at h; exact Except.noConfusion h
    | ok c1 => exact ⟨c1, rfl⟩
  obtain ⟨c1, h1⟩ := h1
  simp only [h1, ebind_ok] at h
  have h2 : ∃ c2, dict_set_path c1 ["runtime", "opt"] (.vdict []) = .ok c2 := by
    cases hx : dict_set_path c1 ["runtime", "opt"] (.vdict []) with
    | error e => rw [hx] at h; exact Except.noConfusion h
    | ok c2 => exact ⟨c2, rfl⟩
  obtain ⟨c2, h2⟩ := h2
  simp only [h2, ebind_ok] at h
  have h3 : ∃ c3, dict_set_path c2 ["runtime", "id"] (.vdict []) = .ok c3 := by
    cases hx : dict_set_path c2 ["runtime", "id"] (.vdict []) with
    | error e => rw [hx] at h; exact Except.noConfusion h
    | ok c3 => exact ⟨c3, rfl⟩
  obtain ⟨c3, h3⟩ := h3
  simp only [h3, ebind_ok] at h
  have h4 : ∃ c4, dict_set_path c3 ["runtime", "state"] (.vstr "start") = .ok c4 := by
    cases hx : dict_set_path c3 ["runtime", "state"] (.vstr "start") with
    | error e => rw [hx] at h; exact Except.noConfusion h
    | ok c4 => exact ⟨c4, rfl⟩
  obtain ⟨c4, h4⟩ := h4
  simp only [h4, ebind_ok] at h
  have h5 : ∃ c5, dict_set_path c4 ["runtime", "opt", "do_make_ready"]
      (.vbool dmr) = .ok c5 := by
    cases hx : dict_set_path c4 ["runtime", "opt", "do_make_ready"] (.vbool dmr) with
    | error e => rw [hx] at h; exact Except.noConfusion h
    | ok c5 => exact ⟨c5, rfl⟩
  obtain ⟨c5, h5⟩ := h5
  simp only [h5, ebind_ok] at h
  have h6 : ∃ c6, dict_set_path c5 ["runtime", "opt", "is_distributed"]
      (.vbool isd) = .ok c6 := by
    cases hx : dict_set_path c5 ["runtime", "opt", "is_distributed"] (.vbool isd) with
    | error e => rw [hx] at h; exact Except.noConfusion h
    | ok c6 => exact ⟨c6, rfl⟩
  obtain ⟨c6, h6⟩ := h6
  simp only [h6, ebind_ok] at h
  have hg1 : ∃ sys, dict_get c6 "system" = .ok sys := by
    cases hx : dict_get c6 "system" with
    | error e => rw [hx] at h; exact Except.noConfusion h
    | ok sys => exact ⟨sys, rfl⟩
  obtain ⟨sys, hg1⟩ := hg1
  simp only [hg1, ebind_ok] at h
  have hg2 : ∃ idsys, dict_get sys "id_system" = .ok idsys := by
    cases hx : dict_get sys "id_system" with
    | error e => rw [hx] at h; exact Except.noConfusion h
    | ok idsys => exact ⟨idsys, rfl⟩
  obtain ⟨idsys, hg2⟩ := hg2
  simp only [hg2, ebind_ok] at h
  have h7 : ∃ c7, dict_set_path c6 ["runtime", "id", "id_system"] idsys = .ok c7 := by
    cases hx : dict_set_path c6 ["runtime", "id", "id_system"] idsys with
    | error e => rw [hx] at h; exact Except.noConfusion h
    | ok c7 => exact ⟨c7, rfl⟩
  obtain ⟨c7, h7⟩ := h7
  simp only [h7, ebind_ok] at h
  have h8 : ∃ c8, dict_set_path c7 ["runtime", "id", "id_cfg"]
      (.vstr ((ext.hexdigest merged).take 8)) = .ok c8 := by
    cases hx : dict_set_path c7 ["runtime", "id", "id_cfg"]
        (.vstr ((ext.hexdigest merged).take 8)) with
    | error e => rw [hx] at h; exact Except.noConfusion h
    | ok c8 => exact ⟨c8, rfl⟩
  obtain ⟨c8, h8⟩ := h8
  simp only [h8, ebind_ok] at h
  have h9 : ∃ c9, dict_set_path c8 ["runtime", "id", "id_host"]
      (.vstr "tbd") = .ok c9 := by
    cases hx : dict_set_path c8 ["runtime", "id", "id_host"] (.vstr "tbd") with
    | error e => rw [hx] at h; exact Except.noConfusion h
    | ok c9 => exact ⟨c9, rfl⟩
  obtain ⟨c9, h9⟩ := h9
  simp only [h9, ebind_ok] at h
  have h10 : ∃ c10, dict_set_path c9 ["runtime", "id", "id_process"]
      (.vstr "tbd") = .ok c10 := by
    cases hx : dict_set_path c9 ["runtime", "id", "id_process"] (.vstr "tbd") with
    | error e => rw [hx] at h; exact Except.noConfusion h
    | ok c10 => exact ⟨c10, rfl⟩
  obtain ⟨c10, h10⟩ := h10
  simp only [h10, ebind_ok] at h
  have h11 : ∃ c11, dict_set_path c10 ["runtime", "id", "id_node"]
      (.vstr "tbd") = .ok c11 := by
    cases hx : dict_set_path c10 ["runtime", "id", "id_node"] (.vstr "tbd") with
    | error e => rw [hx] at h; exact Except.noConfusion h
    | ok c11 => exact ⟨c11, rfl⟩
  obtain ⟨c11, h11⟩ := h11
  simp only [h11, ebind_ok] at h
  have h12 : ∃ c12, dict_set_path c11 ["runtime", "id", "ts_run"]
      (.vstr "00000000000000") = .ok c12 := by
    cases hx : dict_set_path c11 ["runtime", "id", "ts_run"]
        (.vstr "00000000000000") with
    | error e => rw [hx] at h; exact Except.noConfusion h
    | ok c12 => exact ⟨c12, rfl⟩
  obtain ⟨c12, h12⟩ := h12
  simp only [h12, ebind_ok] at h
  have h13 : ∃ c13, dict_set_path c12 ["runtime", "id", "id_run"]
      (.vstr "00000000") = .ok c13 := by
    cases hx : dict_set_path c12 ["runtime", "id", "id_run"] (.vstr "00000000") with
    | error e => rw [hx] at h; exact Except.noConfusion h
    | ok c13 => exact ⟨c13, rfl⟩
  obtain ⟨c13, h13⟩ := h13
  simp only [h13, ebind_ok] at h
  have hc : c = c13 := validate_ok_eq h
  subst hc
  have g8 : dict_get_path c8 ["runtime", "id", "id_cfg"] =
      .ok (.vstr ((ext.hexdigest merged).take 8)) :=
    dict_get_path_set_path_same ["runtime", "id", "id_cfg"] c7 c8 _ h8
  have g9 := dict_get_path_set_path_other ["runtime", "id"] c8 c9
    (.vstr "tbd") _ "id_host" "id_cfg" (by decide) h9 g8
  have g10 := dict_get_path_set_path_other ["runtime", "id"] c9 c10
    (.vstr "tbd") _ "id_process" "id_cfg" (by decide) h10 g9
  have g11 := dict_get_path_set_path_other ["runtime", "id"] c10 c11
    (.vstr "tbd") _ "id_node" "id_cfg" (by decide) h11 g10
  have g12 := dict_get_path_set_path_other ["runtime", "id"] c11 c12
    (.vstr "00000000000000") _ "ts_run" "id_cfg" (by decide) h12 g11
  have g13 := dict_get_path_set_path_other ["runtime", "id"] c12 c
    (.vstr "00000000") _ "id_run" "id_cfg" (by decide) h13 g12
  exact g13

/-- A concrete instantiation of the external dependencies used by the
concrete evaluations below. -/
def ext_demo : Externals :=
  ⟨fun _ => .ok (.vdict []),
   fun _ => .ok (.vdict []),
   fun _ => "0123456789abcdef0123456789abcdef",
   fun _ => none⟩

/-- C5 counterexample.  With a config string that deserializes to the
empty mapping, `prepare` neither returns a config mapping nor raises
`CfgError`: the `KeyError` on `cfg['system']` is swallowed by the
`logger.catch` decorator and `prepare` returns `None`. -/
theorem prepare_returns_none_at_input :
    prepare ext_demo none (some "gASV") false true "." none = .ok none := rfl

/-- C5 (corrected).  `prepare` either returns a config mapping, raises
`CfgError`, or — when a non-`CfgError` exception occurs while merging,
applying overrides, installing the runtime block or validating — logs the
failure and returns `None`; no error other than `CfgError` escapes
`prepare`. -/
theorem prepare_no_foreign_error_escapes
    (ext : Externals) (path_cfg string_cfg : Option String)
    (do_make_ready is_distributed : Bool) (delim_cfg_addr : String)
    (tup_overrides : Option (List String)) (e : PyErr)
    (h : prepare ext path_cfg string_cfg do_make_ready is_distributed
      delim_cfg_addr tup_overrides = .error e) :
    ∃ msg, e = PyErr.cfgError msg := by
  unfold prepare logger_catch_exclude_CfgError at h
  cases hb : prepare_body ext path_cfg string_cfg do_make_ready is_distributed
      delim_cfg_addr tup_overrides with
  | ok v =>
      rw [hb] at h
      exact Except.noConfusion h
  | error err =>
      rw [hb] at h
      cases err with
      | cfgError msg =>
          refine ⟨msg, ?_⟩
          have := Except.error.inj h
          exact this.symm
      | runtimeError msg => exact Except.noConfusion h
      | keyError k => exact Except.noConfusion h
      | typeError msg => exact Except.noConfusion h
      | attributeError msg => exact Except.noConfusion h
      | indexError msg => exact Except.noConfusion h

/-- Witness for C5: with no config source at all, `prepare` raises
`CfgError`, and the theorem classifies that error as a `CfgError`. -/
theorem prepare_no_foreign_error_escapes_witness :
    prepare ext_demo none none false true "." none =
      .error (.cfgError "No configuration data has been provided.") ∧
    ∃ msg, PyErr.cfgError "No configuration data has been provided." =
      PyErr.cfgError msg :=
  ⟨rfl, prepare_no_foreign_error_escapes ext_demo none none false true "." none _ rfl⟩

/-- A minimal configuration passing the schema and referential
consistency checks: one host, one process, no nodes, no edges. -/
def demo_cfg_min : Val := .vdict
  [ ("system", .vdict [("id_system", .vstr "mysys")]),
    ("host", .vdict [("h", .vdict [])]),
    ("process", .vdict [("p", .vdict [("host", .vstr "h")])]),
    ("node", .vdict []),
    ("edge", .vlist []),
    ("data", .vdict []) ]

/-! ### The normalized-config schema (`xact/cfg/validate.py`)

`_normalized_cfg_schema()` is a constant draft-07 schema; the
`jsonschema.validate` call is embedded as a checker compiled from that
constant.  The checker returns a violation message exactly when the
instance violates the schema (only the message text differs from
jsonschema's); `propertyNames: {type: string}` is trivially satisfied
because embedded mapping keys are strings.  All `pattern` strings are
either anchored character classes or, for `edge_direction`,
`^feedforward|feedback$`, which under `re.search` matches any string
starting with `feedforward` or ending with `feedback`. -/

def is_lower_char (c : Char) : Bool := 97 ≤ c.toNat && c.toNat ≤ 122

def is_upper_char (c : Char) : Bool := 65 ≤ c.toNat && c.toNat ≤ 90

def is_digit_char (c : Char) : Bool := 48 ≤ c.toNat && c.toNat ≤ 57

/-- `^[0-9]*$`. -/
def pat_numeric (s : String) : Bool := s.data.all fun c => is_digit_char c

/-- `^[a-f0-9]*$`. -/
def pat_hex (s : String) : Bool :=
  s.data.all fun c => is_digit_char c || (97 ≤ c.toNat && c.toNat ≤ 102)

/-- `^[a-z0-9_]*$`. -/
def pat_lowercase_name (s : String) : Bool :=
  s.data.all fun c => is_lower_char c || is_digit_char c || c == '_'

/-- `^[a-z0-9_.]*$`. -/
def pat_lowercase_dot_path (s : String) : Bool :=
  s.data.all fun c => is_lower_char c || is_digit_char c || c == '_' || c == '.'

/-- `^[A-Za-z0-9_.:]*$`. -/
def pat_entry_point_obj_ref (s : String) : Bool :=
  s.data.all fun c => is_upper_char c || is_lower_char c || is_digit_char c ||
    c == '_' || c == '.' || c == ':'

/-- `^feedforward|feedback$` under `re.search`. -/
def pat_edge_direction (s : String) : Bool :=
  s.startsWith "feedforward" || s.endsWith "feedback"

/-- The first violation of a list of sub-checks, if any. -/
def js_first : List (Option String) → Option String
  | [] => none
  | none :: rest => js_first rest
  | some m :: _ => some m

/-- A `properties` entry: check the sub-schema when the key is present. -/
def js_prop (es : List (String × Val)) (k : String)
    (chk : Val → Option String) : Option String :=
  match es.lookup k with
  | some v => chk v
  | none => none

/-- A `required` list. -/
def js_required (es : List (String × Val)) (keys : List String) :
    Option String :=
  match keys.find? fun k => (es.lookup k).isNone with
  | some k => some (k ++ " is a required property")
  | none => none

/-- `additionalProperties: false` over the given `properties` names. -/
def js_no_additional (es : List (String × Val)) (allowed : List String) :
    Option String :=
  match (es.map Prod.fst).find? fun k => !(allowed.contains k) with
  | some k =>
      some ("Additional properties are not allowed (" ++ k ++ " was unexpected)")
  | none => none

/-- An `additionalProperties` sub-schema applied to every entry (used
when no `properties` are listed). -/
def js_each_value (es : List (String × Val)) (chk : Val → Option String) :
    Option String :=
  js_first (es.map fun p => chk p.2)

/-- `{'type': 'object'}`. -/
def js_object : Val → Option String
  | .vdict _ => none
  | _ => some "is not of type object"

/-- `{'type': 'string'}`. -/
def js_type_string : Val → Option String
  | .vstr _ => none
  | _ => some "is not of type string"

/-- `{'type': 'boolean'}`. -/
def js_boolean : Val → Option String
  | .vbool _ => none
  | _ => some "is not of type boolean"

/-- A `{'type': 'string', 'pattern': ...}` definition. -/
def js_string_with (pat : String → Bool) (label : String) :
    Val → Option String
  | .vstr s => if pat s then none else some (label ++ " does not match pattern")
  | _ => some (label ++ " is not of type string")

/-- `#/definitions/spec_functionality`. -/
def js_spec_functionality : Val → Option String
  | .vdict es => js_first
      [ js_prop es "py_module" (js_string_with pat_entry_point_obj_ref "py_module"),
        js_prop es "py_src" fun w =>
          match w with
          | .vdict es2 => js_first
              [ js_prop es2 "reset" js_type_string,
                js_prop es2 "step" js_type_string ]
          | _ => some "py_src is not of type object" ]
  | _ => some "functionality is not of type object"

/-- The `system` section schema. -/
def js_system : Val → Option String
  | .vdict es => js_first
      [ js_prop es "id_system" (js_string_with pat_lowercase_name "id_system"),
        js_required es ["id_system"],
        js_no_additional es ["id_system"] ]
  | _ => some "system is not of type object"

/-- One `host` entry. -/
def js_host_entry : Val → Option String
  | .vdict es => js_first
      ((["hostname", "acct_run", "acct_provision", "port_range", "password",
         "key_filename", "dirpath_install", "dirpath_venv", "dirpath_log",
         "log_level"].map fun k => js_prop es k js_type_string) ++
       [js_no_additional es ["hostname", "acct_run", "acct_provision",
         "port_range", "password", "key_filename", "dirpath_install",
         "dirpath_venv", "dirpath_log", "log_level"]])
  | _ => some "host entry is not of type object"

/-- The `host` section schema. -/
def js_host : Val → Option String
  | .vdict es => js_each_value es js_host_entry
  | _ => some "host is not of type object"

/-- One `process` entry. -/
def js_process_entry : Val → Option String
  | .vdict es => js_first
      [ js_prop es "host" (js_string_with pat_lowercase_name "host"),
        js_required es ["host"],
        js_no_additional es ["host"] ]
  | _ => some "process entry is not of type object"

/-- The `process` section schema. -/
def js_process : Val → Option String
  | .vdict es => js_each_value es js_process_entry
  | _ => some "process is not of type object"

/-- One `node` entry. -/
def js_node_entry : Val → Option String
  | .vdict es => js_first
      [ js_prop es "process" (js_string_with pat_lowercase_name "process"),
        js_prop es "req_host_cfg" (js_string_with pat_lowercase_name "req_host_cfg"),
        js_prop es "functionality" js_spec_functionality,
        js_prop es "state_type" (js_string_with pat_lowercase_name "state_type"),
        js_prop es "config" js_object,
        js_required es ["process", "functionality"],
        js_no_additional es ["process", "req_host_cfg", "functionality",
          "state_type", "config"] ]
  | _ => some "node entry is not of type object"

/-- The `node` section schema. -/
def js_node : Val → Option String
  | .vdict es => js_each_value es js_node_entry
  | _ => some "node is not of type object"

/-- One `edge` item. -/
def js_edge_item : Val → Option String
  | .vdict es => js_first
      [ js_prop es "owner" (js_string_with pat_lowercase_name "owner"),
        js_prop es "data" (js_string_with pat_lowercase_name "data"),
        js_prop es "src" (js_string_with pat_lowercase_dot_path "src"),
        js_prop es "dst" (js_string_with pat_lowercase_dot_path "dst"),
        js_prop es "dirn" (js_string_with pat_edge_direction "dirn"),
        js_required es ["owner", "data", "src", "dst"],
        js_no_additional es ["owner", "data", "src", "dst", "dirn"] ]
  | _ => some "edge item is not of type object"

/-- The `edge` section schema. -/
def js_edge : Val → Option String
  | .vlist xs => js_first (xs.map js_edge_item)
  | _ => some "edge is not of type array"

/-- The `runtime.opt` schema: requires `do_make_ready` and `is_local`,
forbids everything else. -/
def js_runtime_opt : Val → Option String
  | .vdict es => js_first
      [ js_prop es "do_make_ready" js_boolean,
        js_prop es "is_local" js_boolean,
        js_required es ["do_make_ready", "is_local"],
        js_no_additional es ["do_make_ready", "is_local"] ]
  | _ => some "opt is not of type object"

/-- The `runtime.id` schema. -/
def js_runtime_id : Val → Option String
  | .vdict es => js_first
      [ js_prop es "id_system" (js_string_with pat_lowercase_name "id_system"),
        js_prop es "id_cfg" (js_string_with pat_hex "id_cfg"),
        js_prop es "id_host" (js_string_with pat_lowercase_name "id_host"),
        js_prop es "id_process" (js_string_with pat_lowercase_name "id_process"),
        js_prop es "id_node" (js_string_with pat_lowercase_name "id_node"),
        js_prop es "ts_run" (js_string_with pat_numeric "ts_run"),
        js_prop es "id_run" (js_string_with pat_hex "id_run"),
        js_required es ["id_host", "id_run", "ts_run", "id_cfg"],
        js_no_additional es ["id_system", "id_cfg", "id_host", "id_process",
          "id_node", "ts_run", "id_run"] ]
  | _ => some "id is not of type object"

/-- The `runtime` schema: properties `opt`, `id`, `proc`, all required,
`additionalProperties: false`. -/
def js_runtime : Val → Option String
  | .vdict es => js_first
      [ js_prop es "opt" js_runtime_opt,
        js_prop es "id" js_runtime_id,
        js_prop es "proc" js_object,
        js_required es ["opt", "id", "proc"],
        js_no_additional es ["opt", "id", "proc"] ]
  | _ => some "runtime is not of type object"

/-- `jsonschema.validate(cfg, _normalized_cfg_schema())` compiled to a
checker: the top level is an object with the listed section schemas and
required keys (no `additionalProperties` restriction at the top level). -/
def normalized_schema_check : Val → Option String
  | .vdict es => js_first
      [ js_prop es "system" js_system,
        js_prop es "host" js_host,
        js_prop es "process" js_process,
        js_prop es "node" js_node,
        js_prop es "edge" js_edge,
        js_prop es "queue" js_object,
        js_prop es "req_host_cfg" js_object,
        js_prop es "roles" js_object,
        js_prop es "data" js_object,
        js_prop es "runtime" js_runtime,
        js_required es ["system", "host", "process", "node", "edge", "data"] ]
  | _ => some "cfg is not of type object"

/-- External dependencies delivering `demo_cfg_min` from the config
string, with a fixed digest standing in for the sha512 hex digest and
the repository's own normalized-config schema as the structural check. -/
def ext_demo3 : Externals :=
  ⟨fun _ => .ok (.vdict []),
   fun _ => .ok demo_cfg_min,
   fun _ => "0123456789abcdef0123456789abcdef",
   normalized_schema_check⟩

/-- C9 (code bug).  Evaluation at the failing input: the schema-valid
minimal config merges cleanly, yet `prepare` raises `CfgError` instead
of returning it, because the runtime block `prepare` itself installs
violates the repository's normalized-config schema: `runtime.opt` lacks
the required `is_local` and carries the forbidden `is_distributed`,
`runtime` lacks the required `proc` and carries the forbidden `state`.
The literal runtime block of this run (fourth conjunct), holding the
8-hex-character `id_cfg` slice `hexdigest(cfg)[0:8]` the code computes
where the spec promises 16, is itself rejected by the runtime
sub-schema.  Hence no configuration is ever accepted by `prepare` and
the spec's account of accepted configs carrying a 16-character `id_cfg`
is never realised. -/
theorem prepare_output_rejected_by_schema :
    prepare_merge_phase ext_demo3 none (some "cfg") "." none =
      .ok demo_cfg_min ∧
    normalized_schema_check demo_cfg_min = none ∧
    (∃ msg, prepare ext_demo3 none (some "cfg") false true "." none =
      .error (.cfgError msg)) ∧
    js_runtime (.vdict
      [("opt", .vdict [("do_make_ready", .vbool false),
                       ("is_distributed", .vbool true)]),
       ("id", .vdict [("id_system", .vstr "mysys"),
                      ("id_cfg", .vstr "01234567"),
                      ("id_host", .vstr "tbd"),
                      ("id_process", .vstr "tbd"),
                      ("id_node", .vstr "tbd"),
                      ("ts_run", .vstr "00000000000000"),
                      ("id_run", .vstr "00000000")]),
       ("state", .vstr "start")]) =
      some "is_local is a required property" :=
  ⟨rfl, rfl, ⟨_, rfl⟩, rfl⟩

/-! ## Denormalisation (`xact/cfg/data/__init__.py`, `xact/cfg/edge.py`)

`xact.cfg.denormalize` is `xact.cfg.edge.denormalize` composed with
`xact.cfg.data.denormalize`. -/

/-- One row of the atomic-type lookup table
(`xact.cfg.data.atomic_types.as_dict()`).  Python and numpy type objects
are embedded as `.vtype` values carrying the type's name; absent entries
(`None`) are `.vnull`. -/
def typeinfo_row (id : String) (py_eq c_eq align : Bool) (py : String)
    (np c : Val) : String × Val :=
  (id, .vdict [("id", .vstr id), ("py_eq", .vbool py_eq),
    ("c_eq", .vbool c_eq), ("align", .vbool align), ("py", .vtype py),
    ("np", np), ("c", c)])

/-- `xact.cfg.data.atomic_types.as_dict()`. -/
def atomic_types_as_dict : List (String × Val) :=
  [typeinfo_row "py_bytearray" true false true "bytearray" .vnull .vnull,
   typeinfo_row "py_bool" true false true "bool" .vnull .vnull,
   typeinfo_row "py_str" true false true "str" .vnull .vnull,
   typeinfo_row "py_bytes" true false true "bytes" .vnull .vnull,
   typeinfo_row "py_dict" true false true "dict" .vnull .vnull,
   typeinfo_row "py_list" true false true "list" .vnull .vnull,
   typeinfo_row "py_set" true false true "set" .vnull .vnull,
   typeinfo_row "bool_" true false false "bool" (.vtype "numpy.bool_") .vnull,
   typeinfo_row "bool8" false false true "bool" (.vtype "numpy.bool8") .vnull,
   typeinfo_row "byte" false true true "int" (.vtype "numpy.byte") (.vstr "char"),
   typeinfo_row "short" false true true "int" (.vtype "numpy.short") (.vstr "short"),
   typeinfo_row "intc" false true true "int" (.vtype "numpy.intc") (.vstr "int"),
   typeinfo_row "int" false true false "int" (.vtype "numpy.int_") (.vstr "int"),
   typeinfo_row "int_" false true false "int" (.vtype "numpy.int_") (.vstr "long"),
   typeinfo_row "longlong" false true true "int" (.vtype "numpy.longlong")
     (.vstr "long long"),
   typeinfo_row "intp" false true true "int" (.vtype "numpy.intp") (.vstr "void *"),
   typeinfo_row "int8" false true true "int" (.vtype "numpy.int8") (.vstr "int8_t"),
   typeinfo_row "int16" false true true "int" (.vtype "numpy.int16") (.vstr "int16_t"),
   typeinfo_row "int32" false true true "int" (.vtype "numpy.int32") (.vstr "int32_t"),
   typeinfo_row "int64" false true true "int" (.vtype "numpy.int64") (.vstr "int64_t"),
   typeinfo_row "ubyte" false true true "int" (.vtype "numpy.ubyte")
     (.vstr "unsigned char"),
   typeinfo_row "ushort" false true true "int" (.vtype "numpy.ushort")
     (.vstr "unsigned short"),
   typeinfo_row "uintc" false true true "int" (.vtype "numpy.uintc")
     (.vstr "unsigned int"),
   typeinfo_row "uint" true false true "int" (.vtype "numpy.uint") .vnull,
   typeinfo_row "ulonglong" false true true "int" (.vtype "numpy.ulonglong")
     (.vstr "long long"),
   typeinfo_row "uintp" false true true "int" (.vtype "numpy.uintp") (.vstr "void *"),
   typeinfo_row "uint8" false true true "int" (.vtype "numpy.uint8") (.vstr "uint8_t"),
   typeinfo_row "uint16" false true true "int" (.vtype "numpy.uint16")
     (.vstr "uint16_t"),
   typeinfo_row "uint32" false true true "int" (.vtype "numpy.uint32")
     (.vstr "uint32_t"),
   typeinfo_row "uint64" false true true "int" (.vtype "numpy.uint64")
     (.vstr "uint64_t"),
   typeinfo_row "half" false false true "float" (.vtype "numpy.half") .vnull,
   typeinfo_row "single" false true true "float" (.vtype "numpy.single")
     (.vstr "float"),
   typeinfo_row "double" false true true "float" (.vtype "numpy.double")
     (.vstr "double"),
   typeinfo_row "float_" true false false "float" (.vtype "numpy.float_") .vnull,
   typeinfo_row "longfloat" false true true "float" (.vtype "numpy.longfloat")
     (.vstr "long float"),
   typeinfo_row "float16" false false true "float" (.vtype "numpy.float16") .vnull,
   typeinfo_row "float32" false false true "float" (.vtype "numpy.float32") .vnull,
   typeinfo_row "float64" false false true "float" (.vtype "numpy.float64") .vnull,
   typeinfo_row "csingle" false false true "float" (.vtype "numpy.csingle") .vnull,
   typeinfo_row "complex_" true false false "complex" (.vtype "numpy.complex_")
     .vnull,
   typeinfo_row "clongfloat" false false true "complex" (.vtype "numpy.clongfloat")
     .vnull,
   typeinfo_row "complex64" false false true "complex" (.vtype "numpy.complex64")
     .vnull,
   typeinfo_row "complex128" false false true "complex" (.vtype "numpy.complex128")
     .vnull]

/-- Calling a python type object (`type_info['py']()`): the zero or
empty value of the type.  `set()` is embedded by an empty list and
`complex()` by the float literal `0j`. -/
def py_type_call : Val → Except PyErr Val
  | .vtype "bytearray" => .ok (.vstr "")
  | .vtype "bool" => .ok (.vbool false)
  | .vtype "str" => .ok (.vstr "")
  | .vtype "bytes" => .ok (.vstr "")
  | .vtype "dict" => .ok (.vdict [])
  | .vtype "list" => .ok (.vlist [])
  | .vtype "set" => .ok (.vlist [])
  | .vtype "int" => .ok (.vint 0)
  | .vtype "float" => .ok (.vfloat "0.0")
  | .vtype "complex" => .ok (.vfloat "0j")
  | _ => .error (.typeError "object is not callable")

/-- `SubstitutionTable(parameters)[key]` where `parameters` is always the
empty dict in `data.denormalize` (and unhashable keys return themselves),
so the table is the identity. -/
def subs_empty (key : Val) : Val := key

/-- `typeinfo[subs[x]]`: dict subscript with an arbitrary key;
`TypeError` for unhashable keys, `KeyError` for hashable keys not in the
table. -/
def typeinfo_lookup (typeinfo : List (String × Val)) : Val → Except PyErr Val
  | .vstr s =>
      match typeinfo.lookup s with
      | some ti => .ok ti
      | none => .error (.keyError s)
  | .vdict _ => .error (.typeError "unhashable type")
  | .vlist _ => .error (.typeError "unhashable type")
  | other => .error (.keyError (val_str other))

/-- `FieldCategory` of `xact/cfg/data/__init__.py`. -/
inductive FieldCategory
  | named_type
  | compound_type
  | parameterised_type
  deriving DecidableEq

/-- `node.category.name`. -/
def FieldCategory.catname : FieldCategory → String
  | .named_type => "named_type"
  | .compound_type => "compound_type"
  | .parameterised_type => "parameterised_type"

/-- A `Frame` of the depth-first traversal.  `line` and `col` are always
`None` for plain (non-ruamel) data (the `AttributeError` path in the
source) and are embedded as the constant `.vnull` in node-info records. -/
structure DFrame where
  level : Nat
  path  : List String
  item  : Val

/-- `xact.util.first(item.keys())` paired with `first(item.values())`:
the first entry of a mapping; `AttributeError` on non-mappings,
`StopIteration` (embedded as `RuntimeError`) on empty ones. -/
def first_item : Val → Except PyErr (String × Val)
  | .vdict ((k, v) :: _) => .ok (k, v)
  | .vdict [] => .error (.runtimeError "StopIteration")
  | _ => .error (.attributeError "keys")

/-- Order on top-level data items: by key string. -/
def dentry_le (a b : String × Val) : Prop := str_le_rel a.1 b.1

instance (a b : String × Val) : Decidable (dentry_le a b) := by
  unfold dentry_le
  infer_instance

/-- `_init_stack`: one single-entry mapping per top-level item, sorted by
key.  The source appends the items reversed and pops from the right of a
deque; the embedding keeps the top of the stack at the head of the list,
so items pop in ascending key order. -/
def _init_stack (map : Val) : Except PyErr (List DFrame) :=
  match map with
  | .vdict es =>
      .ok ((List.insertionSort dentry_le es).map
        fun p => (⟨0, [], .vdict [(p.1, p.2)]⟩ : DFrame))
  | _ => .error (.attributeError "items")

/-- A `Node` yielded by `_iter_depth_first`. -/
structure DNode where
  level    : Nat
  path     : List String
  name     : String
  spec     : Val
  category : FieldCategory

/-- `expanded[node.path][node.name] = value`: `PathDict.__getitem__`
walks the path (`KeyError` on a missing name, `TypeError` when
subscripting a non-mapping with a string name), then a plain item
assignment at the end. -/
def pathdict_set (v : Val) : List String → String → Val → Except PyErr Val
  | [], name, w => dict_set_val v name w
  | k :: rest, name, w =>
      match v with
      | .vdict es =>
          match es.lookup k with
          | some child => do
              let child2 ← pathdict_set child rest name w
              pure (.vdict (assocSet es k child2))
          | none => .error (.keyError k)
      | _ => .error (.typeError "object is not subscriptable")

/-- `_expand_node`: expand a single node (not recursive).  `subs` is the
empty substitution table, i.e. the identity `subs_empty`. -/
def _expand_node (node : DNode) (typeinfo : List (String × Val)) (idx : Nat) :
    Except PyErr Val := do
  let spec := node.spec
  let base : List (String × Val) :=
    [("category", .vstr node.category.catname),
     ("src_line", .vnull),
     ("src_col", .vnull),
     ("src_level", .vint node.level),
     ("src_path", .vlist ((node.path ++ [node.name]).map Val.vstr)),
     ("src_seqnum", .vint idx)]
  match node.category with
  | .compound_type => pure (.vdict [("_node_info", .vdict base)])
  | .named_type => do
      let type_info ← typeinfo_lookup typeinfo (subs_empty spec)
      let py ← dict_get type_info "py"
      let preset ← py_type_call py
      pure (.vdict [("_node_info", .vdict (base ++
        [("typeinfo", type_info), ("preset", preset),
         ("shape", .vnull), ("memory_order", .vstr "C")]))])
  | .parameterised_type => do
      let ty ← dict_get spec "type"
      let type_info ← typeinfo_lookup typeinfo (subs_empty ty)
      let hasPreset ← py_contains spec "preset"
      let preset ←
        if hasPreset then do
          let p ← dict_get spec "preset"
          pure (subs_empty p)
        else do
          let py ← dict_get type_info "py"
          py_type_call py
      let hasShape ← py_contains spec "shape"
      let shape ←
        if hasShape then do
          let sh ← dict_get spec "shape"
          pure (subs_empty sh)
        else
          pure Val.vnull
      let hasMo ← py_contains spec "memory_order"
      let memory_order ←
        if hasMo then do
          let mo ← dict_get spec "memory_order"
          pure (subs_empty mo)
        else
          pure (Val.vstr "C")
      pure (.vdict [("_node_info", .vdict (base ++
        [("typeinfo", type_info), ("preset", preset),
         ("shape", shape), ("memory_order", memory_order)]))])

/-- An entry of the gap table: `(incomplete_type, missing_type,
gap_parent_path, gap_field)`. -/
structure Gap where
  incomplete_type : String
  missing_type    : String
  gap_parent_path : List String
  gap_field       : String

/-- One step of the expansion loop in `data.denormalize`: try
`expanded[node.path][node.name] = _expand_node(...)`, catching
`TypeError` for named-type nodes by recording a gap; every other
exception propagates. -/
def _denorm_step (typeinfo : List (String × Val)) (node : DNode) (idx : Nat)
    (expanded : Val) (gaps : List Gap) : Except PyErr (Val × List Gap) :=
  let attempt : Except PyErr Val := do
    let v ← _expand_node node typeinfo idx
    pathdict_set expanded node.path node.name v
  match attempt with
  | .ok expanded2 => .ok (expanded2, gaps)
  | .error (.typeError msg) =>
      if node.category = .named_type then do
        let inc ← list_at node.path 0
        match node.spec with
        | .vstr missing =>
            .ok (expanded, gaps ++ [⟨inc, missing, node.path, node.name⟩])
        | other =>
            .ok (expanded, gaps ++ [⟨inc, val_str other, node.path, node.name⟩])
      else
        .error (.typeError msg)
  | .error e => .error e

/-- The main loop of `data.denormalize`: the depth-first traversal
`_iter_depth_first` fused with the consuming expansion loop.  Fuel bounds
the number of traversal steps; `val_weight` below always suffices. -/
def _denorm_loop (typeinfo : List (String × Val)) :
    Nat → List DFrame → Nat → Val → List Gap → Except PyErr (Val × List Gap)
  | 0, _, _, _, _ => .error (.runtimeError "maximum recursion depth exceeded")
  | _ + 1, [], _, expanded, gaps => .ok (expanded, gaps)
  | fuel + 1, frame :: stack, idx, expanded, gaps => do
      let (field_name, content) ← first_item frame.item
      match content with
      | .vlist child_list => do
          let (expanded2, gaps2) ← _denorm_step typeinfo
            ⟨frame.level, frame.path, field_name, .vnull, .compound_type⟩
            idx expanded gaps
          _denorm_loop typeinfo fuel
            ((child_list.map fun child =>
              (⟨frame.level + 1, frame.path ++ [field_name], child⟩ : DFrame))
              ++ stack)
            (idx + 1) expanded2 gaps2
      | .vdict es => do
          let (expanded2, gaps2) ← _denorm_step typeinfo
            ⟨frame.level, frame.path, field_name, .vdict es, .parameterised_type⟩
            idx expanded gaps
          _denorm_loop typeinfo fuel stack (idx + 1) expanded2 gaps2
      | .vstr s => do
          let (expanded2, gaps2) ← _denorm_step typeinfo
            ⟨frame.level, frame.path, field_name, .vstr s, .named_type⟩
            idx expanded gaps
          _denorm_loop typeinfo fuel stack (idx + 1) expanded2 gaps2
      | _ => .error (.runtimeError "Did not recognise type.")

mutual

def val_weight : Val → Nat
  | .vdict es => val_weight_entries es + 1
  | .vlist xs => val_weight_list xs + 1
  | _ => 1

def val_weight_entries : List (String × Val) → Nat
  | [] => 0
  | (_, v) :: rest => val_weight v + val_weight_entries rest + 1

def val_weight_list : List Val → Nat
  | [] => 0
  | v :: rest => val_weight v + val_weight_list rest + 1

end

/-- `GapTable._missing_set()` (in first-occurrence order). -/
def gap_missing_set (gaps : List Gap) : List String :=
  (gaps.map fun g => g.missing_type).dedup

/-- `GapTable._incomplete_set()` (in first-occurrence order). -/
def gap_incomplete_set (gaps : List Gap) : List String :=
  (gaps.map fun g => g.incomplete_type).dedup

/-- `GapTable._fill_gaps_of_type`: fill every recorded gap of
`incomplete` whose missing type is `ready` with a copy of the ready
type's expansion, then drop those gaps from the table. -/
def _fill_gaps_of_type (output : Val) (gaps : List Gap)
    (incomplete ready : String) : Except PyErr (Val × List Gap) := do
  let relevant := gaps.filter fun g =>
    g.incomplete_type == incomplete && g.missing_type == ready
  let output2 ← relevant.foldlM
    (fun out g => do
      let readyVal ← dict_get_path out [ready]
      pathdict_set out g.gap_parent_path g.gap_field readyVal)
    output
  pure (output2, gaps.filter fun g =>
    !(g.incomplete_type == incomplete && g.missing_type == ready))

/-- `GapTable._fill_gaps_with_ready_types`. -/
def _fill_gaps_with_ready_types (output : Val) (gaps : List Gap)
    (ready_set incomplete_set : List String) :
    Except PyErr (Val × List Gap) :=
  ready_set.foldlM
    (fun acc ready =>
      incomplete_set.foldlM
        (fun acc2 inc => _fill_gaps_of_type acc2.1 acc2.2 inc ready)
        acc)
    (output, gaps)

/-- The `sanity_limit` loop of `GapTable.fill_all`. -/
def gap_fill_all_loop : Nat → Val → List Gap → Except PyErr (Val × List Gap)
  | 0, output, gaps => .ok (output, gaps)
  | n + 1, output, gaps =>
      if gaps.isEmpty then .ok (output, gaps)
      else
        let ready := (gap_missing_set gaps).filter fun t =>
          !((gap_incomplete_set gaps).contains t)
        if ready.isEmpty then
          .error (.runtimeError "Undefined type or cyclic reference.")
        else do
          let (o2, g2) ← _fill_gaps_with_ready_types output gaps ready
            (gap_incomplete_set gaps)
          gap_fill_all_loop n o2 g2

/-- `GapTable.fill_all` with `sanity_limit = 16`. -/
def gap_fill_all (output : Val) (gaps : List Gap) : Except PyErr Val := do
  let (o2, g2) ← gap_fill_all_loop 16 output gaps
  if g2.isEmpty then pure o2
  else .error (.runtimeError "Logic error")

/-- `_iter_expanded`: flatten one expanded type definition depth-first,
adding `dst_seqnum`, `dst_path` and `dst_level` to each yielded node-info
record and closing each compound scope with a deep-copied
`compound_type_scope_closer` record. -/
def _iter_expanded_loop :
    Nat → List (Val × List String) → Nat → List Val → Except PyErr (List Val)
  | 0, _, _, _ => .error (.runtimeError "maximum recursion depth exceeded")
  | _ + 1, [], _, out => .ok out
  | fuel + 1, (node, path) :: stack, idx, out => do
      let node_info ← dict_get node "_node_info"
      let node_info2 ←
        match node_info with
        | .vdict es =>
            pure (Val.vdict (assocSet (assocSet (assocSet es
              "dst_seqnum" (.vint idx))
              "dst_path" (.vlist (path.map Val.vstr)))
              "dst_level" (.vint path.length)))
        | _ => Except.error (.typeError "item assignment on a non-dict value")
      let out2 := out ++ [node_info2]
      let children :=
        match node with
        | .vdict es => (es.map Prod.fst).filter fun k => k ≠ "_node_info"
        | _ => []
      if children.isEmpty then
        _iter_expanded_loop fuel stack (idx + 1) out2
      else do
        let scope_closer ←
          match node_info2 with
          | .vdict es =>
              pure (Val.vdict (assocSet es "category"
                (.vstr "compound_type_scope_closer")))
          | _ => Except.error (.typeError "item assignment on a non-dict value")
        let child_frames ← children.mapM fun key => do
          let child ← dict_get node key
          pure (child, path ++ [key])
        _iter_expanded_loop fuel
          (child_frames ++ [(Val.vdict [("_node_info", scope_closer)], path)]
            ++ stack)
          (idx + 1) out2

/-- `xact.cfg.data.denormalize`. -/
def data_denormalize (cfg : Val) : Except PyErr Val := do
  let cfg_data ← dict_get cfg "data"
  let typeinfo := atomic_types_as_dict
  let stack ← _init_stack cfg_data
  let (expanded, gaps) ← _denorm_loop typeinfo (val_weight cfg_data + 1)
    stack 0 (.vdict []) []
  let expanded2 ← gap_fill_all expanded gaps
  match expanded2 with
  | .vdict items => do
      let std_form ← items.foldlM
        (fun acc p => do
          let flat ← _iter_expanded_loop (val_weight p.2 * 4 + 4) [(p.2, [])] 0 []
          pure (acc ++ [(p.1, Val.vlist flat)]))
        ([] : List (String × Val))
      dict_set_val cfg "data" (.vdict std_form)
  | _ => .error (.attributeError "items")

/-- Dict subscript with an arbitrary Python value as key: `TypeError`
for unhashable keys, `KeyError` for hashable keys absent from a
string-keyed mapping. -/
def dict_get_by (v : Val) : Val → Except PyErr Val
  | .vstr s => dict_get v s
  | .vdict _ => .error (.typeError "unhashable type")
  | .vlist _ => .error (.typeError "unhashable type")
  | other =>
      match v with
      | .vdict _ => .error (.keyError (val_str other))
      | _ => .error (.typeError "string indices require a mapping")

/-- `value.split('.')` on an edge path. -/
def val_as_str : Val → Except PyErr String
  | .vstr s => .ok s
  | _ => .error (.attributeError "split")

/-- `xact.cfg.edge._denormalize_nodes`: set each node's `host` from its
process. -/
def _denormalize_nodes (cfg : Val) : Except PyErr Val := do
  let node ← dict_get cfg "node"
  let keys ← dict_keys node
  keys.foldlM
    (fun cfg id_node => do
      let nodemap ← dict_get cfg "node"
      let cfg_node ← dict_get nodemap id_node
      let id_process ← dict_get cfg_node "process"
      let procmap ← dict_get cfg "process"
      let proc_entry ← dict_get_by procmap id_process
      let id_host ← dict_get proc_entry "host"
      dict_set_path cfg ["node", id_node, "host"] id_host)
    cfg

/-- `xact.cfg.edge._add_src_info`. -/
def _add_src_info (cfg e : Val) : Except PyErr (Val × String × Val × Val) := do
  let path_srcV ← dict_get e "src"
  let path_src ← val_as_str path_srcV
  let parts := path_src.splitOn "."
  let id_node_src ← list_at parts 0
  let nodemap ← dict_get cfg "node"
  let n ← dict_get nodemap id_node_src
  let id_process_src ← dict_get n "process"
  let id_host_src ← dict_get n "host"
  let e ← dict_set_val e "relpath_src" (.vlist ((parts.drop 1).map Val.vstr))
  let e ← dict_set_val e "id_node_src" (.vstr id_node_src)
  let e ← dict_set_val e "id_host_src" id_host_src
  pure (e, path_src, id_process_src, id_host_src)

/-- `xact.cfg.edge._add_dst_info`. -/
def _add_dst_info (cfg e : Val) : Except PyErr (Val × String × Val × Val) := do
  let path_dstV ← dict_get e "dst"
  let path_dst ← val_as_str path_dstV
  let parts := path_dst.splitOn "."
  let id_node_dst ← list_at parts 0
  let nodemap ← dict_get cfg "node"
  let n ← dict_get nodemap id_node_dst
  let id_process_dst ← dict_get n "process"
  let id_host_dst ← dict_get n "host"
  let e ← dict_set_val e "relpath_dst" (.vlist ((parts.drop 1).map Val.vstr))
  let e ← dict_set_val e "id_node_dst" (.vstr id_node_dst)
  let e ← dict_set_val e "id_host_dst" id_host_dst
  pure (e, path_dst, id_process_dst, id_host_dst)

/-- `xact.cfg.edge._add_host_owner`. -/
def _add_host_owner (cfg e : Val) : Except PyErr (Val × Val) := do
  let id_node_owner ← dict_get e "owner"
  let nodemap ← dict_get cfg "node"
  let owner_node ← dict_get_by nodemap id_node_owner
  let id_host_owner ← dict_get owner_node "host"
  let e ← dict_set_val e "id_host_owner" id_host_owner
  pure (e, id_host_owner)

/-- `xact.cfg.edge._add_ipc_type` together with `_ipc_type`. -/
def _add_ipc_type (e : Val) (ps pd hs hd : Val) :
    Except PyErr (Val × Bool) := do
  let is_same_process := val_beq ps pd
  let is_same_host := val_beq hs hd
  let is_intra_process := is_same_host && is_same_process
  let is_inter_process := is_same_host && !is_same_process
  let is_inter_host := !is_same_host && !is_same_process
  let ipc_type ←
    if is_intra_process then pure "intra_process"
    else if is_inter_process then pure "inter_process"
    else if is_inter_host then pure "inter_host"
    else throw (.runtimeError "Cannot use one process_id on two different hosts")
  let e ← dict_set_val e "ipc_type" (.vstr ipc_type)
  pure (e, is_inter_host)

/-- `map_idx_edge[k]` on the `defaultdict(int)`. -/
def vmap_get (m : List (Val × Nat)) (k : Val) : Nat :=
  ((m.find? fun p => val_beq p.1 k).map Prod.snd).getD 0

/-- `map_idx_edge[k] += 1`. -/
def vmap_incr (m : List (Val × Nat)) (k : Val) : List (Val × Nat) :=
  if (m.find? fun p => val_beq p.1 k).isSome then
    m.map fun p => if val_beq p.1 k then (p.1, p.2 + 1) else p
  else
    m ++ [(k, 1)]

/-- `xact.cfg.edge._denormalize_edges`: enrich every edge in order and
return the set of inter-host owner host ids. -/
def _denormalize_edges (cfg : Val) : Except PyErr (Val × List Val) := do
  let edgesV ← dict_get cfg "edge"
  let edges ← py_iter edgesV
  let (cfg2, newEdges, set_owner, _map_idx) ← edges.foldlM
    (fun acc e => do
      let (cfg, processed, set_owner, map_idx) := acc
      let (e, path_src, ps, hs) ← _add_src_info cfg e
      let (e, path_dst, pd, hd) ← _add_dst_info cfg e
      let hasDirn ← py_contains e "dirn"
      let e ←
        if hasDirn then pure e
        else dict_set_val e "dirn" (.vstr "feedforward")
      let e ← dict_set_val e "id_edge" (.vstr (path_src ++ "-" ++ path_dst))
      let e ← dict_set_val e "list_id_process" (.vlist [ps, pd])
      let e ← dict_set_val e "list_id_host" (.vlist [hs, hd])
      let (e, id_host_owner) ← _add_host_owner cfg e
      let (e, is_inter_host) ← _add_ipc_type e ps pd hs hd
      let (set_owner, map_idx, idx_edge) :=
        if is_inter_host then
          ((if set_owner.any fun x => val_beq x id_host_owner then set_owner
            else set_owner ++ [id_host_owner]),
           vmap_incr map_idx id_host_owner,
           Val.vint (vmap_get map_idx id_host_owner))
        else
          (set_owner, map_idx, Val.vnull)
      let e ← dict_set_val e "idx_edge" idx_edge
      pure (cfg, processed ++ [e], set_owner, map_idx))
    (cfg, ([] : List Val), ([] : List Val), ([] : List (Val × Nat)))
  let cfg3 ← dict_set_val cfg2 "edge" (.vlist newEdges)
  pure (cfg3, set_owner)

/-- `xact.cfg.edge._denormalize_hosts`. -/
def _denormalize_hosts (cfg : Val) (set_owner : List Val) :
    Except PyErr Val := do
  let hostmap ← dict_get cfg "host"
  let keys ← dict_keys hostmap
  keys.foldlM
    (fun cfg id_host =>
      dict_set_path cfg ["host", id_host, "is_inter_host_edge_owner"]
        (.vbool (set_owner.any fun x => val_beq x (.vstr id_host))))
    cfg

/-- `xact.cfg.edge.denormalize`. -/
def edge_denormalize (cfg : Val) : Except PyErr Val := do
  let cfg ← _denormalize_nodes cfg
  let (cfg, set_owner) ← _denormalize_edges cfg
  _denormalize_hosts cfg set_owner

/-- `xact.cfg.denormalize`. -/
def denormalize (cfg : Val) : Except PyErr Val := do
  let cfg2 ← data_denormalize cfg
  edge_denormalize cfg2

/-- A validated demo configuration with a nonempty data dictionary: one
data type `mytype` naming the atomic type `py_str`. -/
def demo_cfg6 : Val := .vdict
  [ ("system", .vdict [("id_system", .vstr "mysys")]),
    ("host", .vdict [("h", .vdict [])]),
    ("process", .vdict [("p", .vdict [("host", .vstr "h")])]),
    ("node", .vdict []),
    ("edge", .vlist []),
    ("data", .vdict [("mytype", .vstr "py_str")]) ]

/-- The denormalised form of `demo_cfg6` (the output of the first
application of `denormalize`). -/
def demo_denorm1 : Val :=
  match denormalize demo_cfg6 with
  | .ok v => v
  | .error _ => .vnull

/-- C6 counterexample.  Denormalisation is not idempotent: the first
application on the demo config succeeds, but the second application
raises `KeyError`.  `data.denormalize` replaces `cfg['data']` with
flattened node-info lists; re-traversing such a list takes each record's
first entry `('category', 'named_type')` for a field naming a type, and
the lookup of `'named_type'` in the atomic-type table fails. -/
theorem denormalize_not_idempotent_at_input :
    denormalize demo_cfg6 = .ok demo_denorm1 ∧
    denormalize demo_denorm1 = .error (.keyError "named_type") :=
  ⟨rfl, rfl⟩

/-- C6 (corrected).  `denormalize` is not re-applicable on nonempty data:
for every config whose (already denormalised) data dictionary holds a
flattened type definition — a list of node-info records whose first entry
is the `category` marker, one of the four category names — a second
application of `data.denormalize` (and hence of `denormalize`) raises
`KeyError` on that category name instead of returning an equal mapping. -/
theorem denormalize_output_data_not_reapplicable
    (cfg : Val) (t cat : String) (restInfo : List (String × Val))
    (restList : List Val)
    (hdata : dict_get cfg "data" = .ok (.vdict
      [(t, .vlist (.vdict (("category", .vstr cat) :: restInfo) :: restList))]))
    (hcat : cat = "named_type" ∨ cat = "compound_type" ∨
      cat = "parameterised_type" ∨ cat = "compound_type_scope_closer") :
    data_denormalize cfg = .error (.keyError cat) ∧
    denormalize cfg = .error (.keyError cat) := by
  have hd : data_denormalize cfg = .error (.keyError cat) := by
    rcases hcat with rfl | rfl | rfl | rfl
    all_goals {
      unfold data_denormalize
      rw [hdata]
      rfl
    }
  refine ⟨hd, ?_⟩
  unfold denormalize
  rw [hd]
  rfl

/-- Witness for C6: the general theorem applied to the concrete
denormalised demo config. -/
theorem denormalize_output_data_not_reapplicable_witness :
    data_denormalize demo_denorm1 = .error (.keyError "named_type") ∧
    denormalize demo_denorm1 = .error (.keyError "named_type") :=
  denormalize_output_data_not_reapplicable demo_denorm1 "mytype" "named_type"
    _ _ rfl (Or.inl rfl)

end Xact
